import Mathlib

/-!
# Descriptive statistics engine (`statistics/statistics.go`)

A shallow embedding of the `statistics` engine and of its methods.

* The engine is a record of fields; a method with a pointer receiver takes the
  record and returns the updated record together with its Go results.
* `float64` is a type parameter `α`.  The operators the program applies to it
  (`+ - * / < ==`) are the usual classes; the remaining primitives of the Go
  runtime and of package `math` (`float64(i)`, `int(x)`, `math.Pow`,
  `math.Sqrt`) are the fields of `Float64Ops`.  Theorems that need arithmetic
  facts assume that `α` is a linearly ordered field and that the primitives obey
  `ExactArith`: rounding error of `float64` is outside the development, the
  64-bit range of `int` is kept.  The infinite and not-a-number values appear
  only in `Ext`, the instance used for the division by zero of a single input.
* Where a statement is about the numeric value of a rounded result, the carrier
  keeps arbitrary (rounding) primitives and `ExactAt` names the inputs at which
  the steps of `roundToPrecision` are exact.
* `sort.Float64s` is an insertion sort by `sort.Float64Slice.Less`; a
  `map[float64]int` is the list of its entries in the order the keys were added.
* An index expression that is out of range panics: it is `none`.
* `s.numbers = inputs` shares the caller's array: `callerAfter` and
  `callerAssign` give the caller's view of it.
* An `error` is its message; `nil` is `none`.
-/

set_option linter.unusedSectionVars false

namespace Go101

/-- Primitives on `float64` that come from the Go runtime and package `math`. -/
class Float64Ops (α : Type) where
  /-- The conversion `float64(i)` of an `int`. -/
  ofInt : Int → α
  /-- The conversion `int(x)` of a `float64`. -/
  toInt : α → Int
  /-- The function `math.Pow`. -/
  pow : α → α → α
  /-- The function `math.Sqrt`. -/
  sqrt : α → α

/-- The constant `math.MinInt64`. -/
def MinInt64 : Int := -9223372036854775808

/-- The message of the only error the program creates with `errors.New`. -/
def emptyInputs : String := "Can't compute mean of empty inputs."

/-- The struct `statistics`. -/
structure statistics (α : Type) where
  numbers : List α
  sum : α
  mean : α
  median : α
  standardDeviation : α
  modes : List α
  precision : Int
  err : Option String

section Program

variable {α : Type} [Zero α] [Add α] [Sub α] [Mul α] [Div α] [LT α]
  [DecidableRel (fun a b : α => a < b)] [BEq α] [Float64Ops α]

/-- The constructor `NewStatistics`: every field but `precision` has its zero value. -/
def NewStatistics (precision : Int) : statistics α :=
  { numbers := [], sum := 0, mean := 0, median := 0, standardDeviation := 0,
    modes := [], precision := precision, err := none }

/-- The test `math.IsNaN`, which is `f != f`. -/
def isNaN (f : α) : Bool := f != f

/-- The order `sort.Float64Slice.Less`: `<`, with not-a-number values first. -/
def Less (a b : α) : Bool := decide (a < b) || (isNaN a && !isNaN b)

/-- The call `sort.Float64s`: the slice in ascending order of `Less`; an element is
placed before every element that is not `Less` than it. -/
def Float64s (x : List α) : List α :=
  x.insertionSort (fun a b => Less b a = false)

/-- An index expression `xs[i]`; `none` is the run-time panic of an index out of range. -/
def index (xs : List α) (i : Int) : Option α :=
  if i < 0 then none else xs[i.toNat]?

/-- A lookup `m[k]` in a `map[float64]int` with its `ok` flag; keys are compared with `==`. -/
def mapGet (m : List (α × Int)) (k : α) : Option Int :=
  (m.find? (fun e => e.1 == k)).map (fun e => e.2)

/-- An assignment `m[k] = v` in a `map[float64]int`: the entry of an equal key is replaced,
otherwise an entry is added. -/
def mapSet (m : List (α × Int)) (k : α) (v : Int) : List (α × Int) :=
  if m.any (fun e => e.1 == k) then m.map (fun e => if e.1 == k then (e.1, v) else e)
  else m ++ [(k, v)]

namespace statistics

/-- The method `validInputs`. -/
def validInputs (s : statistics α) : Bool := decide (s.numbers.length > 0)

/-- The method `roundToPrecision`. -/
def roundToPrecision (s : statistics α) (input : α) : α :=
  let multiplier : α := Float64Ops.pow (Float64Ops.ofInt 10) (Float64Ops.ofInt s.precision)
  Float64Ops.ofInt (Float64Ops.toInt (input * multiplier)) / multiplier

/-- The method `computeSum`, returning `(sum, err)`. -/
def computeSum (s : statistics α) : α × Option String :=
  if !s.validInputs then (0, some emptyInputs)
  else (s.roundToPrecision (s.numbers.foldl (fun sum x => sum + x) 0), none)

/-- The method `computeMean`, returning the engine (its field `sum` is assigned) and
`(mean, err)`. -/
def computeMean (s : statistics α) : statistics α × α × Option String :=
  if !s.validInputs then (s, 0, some emptyInputs)
  else
    let r := s.computeSum
    let s1 := { s with sum := r.1 }
    if r.2.isSome then (s1, 0, r.2)
    else
      let mean := s1.sum / Float64Ops.ofInt (s1.numbers.length : Int)
      (s1, s1.roundToPrecision mean, none)

/-- The method `computeMedian`, returning `(median, err)`, or `none` when an index
expression panics. -/
def computeMedian (s : statistics α) : Option (α × Option String) :=
  if !s.validInputs then some (0, some emptyInputs)
  else
    let middle : Int := (s.numbers.length : Int) / 2
    (index s.numbers middle).bind fun median =>
      if (s.numbers.length : Int) % 2 = 0 then
        (index s.numbers (middle - 1)).bind fun before =>
          some (s.roundToPrecision ((median + before) / Float64Ops.ofInt 2), none)
      else some (s.roundToPrecision median, none)

/-- The method `computeStandardDeviation`, returning the engine (its call of
`computeMean` assigns the field `sum`) and `(sd, err)`. -/
def computeStandardDeviation (s : statistics α) : statistics α × α × Option String :=
  if !s.validInputs then (s, 0, some emptyInputs)
  else
    let r := s.computeMean
    if r.2.2.isSome then (r.1, 0, r.2.2)
    else
      let mean := r.2.1
      let sum := r.1.numbers.foldl
        (fun sum number => sum + Float64Ops.pow (number - mean) (Float64Ops.ofInt 2)) 0
      let result := Float64Ops.sqrt (sum / Float64Ops.ofInt ((r.1.numbers.length : Int) - 1))
      (r.1, r.1.roundToPrecision result, none)

/-- The body of the first loop of `computeModes`, on the pair `(occurrences, maxOccurrence)`. -/
def countStep (st : List (α × Int) × Int) (input : α) : List (α × Int) × Int :=
  let occurrences :=
    match mapGet st.1 input with
    | some n => mapSet st.1 input (n + 1)
    | none => mapSet st.1 input 1
  let here := (mapGet occurrences input).getD 0
  (occurrences, if here > st.2 then here else st.2)

/-- The method `computeModes`, returning `(modes, err)`.  The second loop ranges over the map
in the order in which the keys were added (Go leaves that order open). -/
def computeModes (s : statistics α) : List α × Option String :=
  if !s.validInputs then ([], some emptyInputs)
  else
    let st := s.numbers.foldl countStep (([] : List (α × Int)), MinInt64)
    ((st.1.filter (fun e => e.2 == st.2)).map (fun e => e.1), none)

/-- The method `Compute`; `none` when the call panics. -/
def Compute (s : statistics α) (inputs : List α) : Option (statistics α) :=
  let s0 := { s with numbers := inputs }
  if !s0.validInputs then some { s0 with err := some emptyInputs }
  else
    let s1 := { s0 with numbers := Float64s s0.numbers }
    let rm := s1.computeMean
    let s2 := { rm.1 with mean := rm.2.1 }
    s2.computeMedian.bind fun rmed =>
      let s3 := { s2 with median := rmed.1 }
      let rsd := s3.computeStandardDeviation
      let s4 := { rsd.1 with standardDeviation := rsd.2.1 }
      let rmo := s4.computeModes
      some { s4 with modes := rmo.1 }

end statistics

/-! ### Closed forms used in the proofs -/

/-- The rounding of `roundToPrecision` as a function of the precision alone. -/
def roundAt (p : Int) (input : α) : α :=
  Float64Ops.ofInt (Float64Ops.toInt (input * Float64Ops.pow (Float64Ops.ofInt 10) (Float64Ops.ofInt p))) /
    Float64Ops.pow (Float64Ops.ofInt 10) (Float64Ops.ofInt p)

/-- The slice the two loops of `computeModes` produce from the stored numbers. -/
def modesOf (a : List α) : List α :=
  ((a.foldl statistics.countStep (([] : List (α × Int)), MinInt64)).1.filter
    (fun e => e.2 == (a.foldl statistics.countStep (([] : List (α × Int)), MinInt64)).2)).map
      (fun e => e.1)

end Program

/-- The invariant of the first loop of `computeModes` after the inputs `l`: the keys of the map
are distinct, the map holds the number of occurrences of every input seen, and
`maxOccurrence` is the largest of them. -/
def CountInv {β : Type} [DecidableEq β] (l : List β) (st : List (β × Int) × Int) : Prop :=
  (st.1.map Prod.fst).Nodup ∧
  (∀ k, mapGet st.1 k = if k ∈ l then some (l.count k : Int) else none) ∧
  (∀ w ∈ l, (l.count w : Int) ≤ st.2) ∧
  ((l = [] ∧ st.2 = MinInt64) ∨ ∃ v ∈ l, (l.count v : Int) = st.2)

/-! ## Exact arithmetic -/

/-- The laws of the primitives when `float64` is read as exact numbers: `float64(i)` is the
number `i`; `int(x)` drops the fraction of `x` as long as the result fits 64 bits; `math.Pow`
of ten to a whole exponent and the square are exact. -/
structure ExactArith (α : Type) [LinearOrderedField α] [Float64Ops α] : Prop where
  ofInt_eq : ∀ k : Int, (Float64Ops.ofInt k : α) = (k : α)
  toInt_nonneg : ∀ x : α, 0 ≤ x → x < 2 ^ 63 →
    ((Float64Ops.toInt x : Int) : α) ≤ x ∧ x < ((Float64Ops.toInt x : Int) : α) + 1
  toInt_nonpos : ∀ x : α, x ≤ 0 → -(2 ^ 63) - 1 < x →
    x ≤ ((Float64Ops.toInt x : Int) : α) ∧ ((Float64Ops.toInt x : Int) : α) - 1 < x
  pow_ten : ∀ n : Int, Float64Ops.pow (Float64Ops.ofInt 10 : α) (Float64Ops.ofInt n) = (10 : α) ^ n
  pow_two : ∀ x : α, Float64Ops.pow x (Float64Ops.ofInt 2) = x ^ 2

/-- The integer `k` is the number `y` with its fraction dropped (truncation toward zero). -/
def IsTrunc {α : Type} [LinearOrderedField α] (k : Int) (y : α) : Prop :=
  (0 ≤ y → (k : α) ≤ y ∧ y < (k : α) + 1) ∧ (y ≤ 0 → y ≤ (k : α) ∧ (k : α) - 1 < y)

section Exactness

variable {α : Type} [Mul α] [Div α] [Float64Ops α] {K : Type} [LinearOrderedField K]

/-- The local `multiplier` of `roundToPrecision` at precision `p`: `math.Pow(10, float64(p))`. -/
def multiplierAt (α : Type) [Float64Ops α] (p : Int) : α :=
  Float64Ops.pow (Float64Ops.ofInt 10) (Float64Ops.ofInt p)

/-- The integer `int(input * multiplier)` of `roundToPrecision` at precision `p`. -/
def scaledInt (p : Int) (x : α) : Int :=
  Float64Ops.toInt (x * multiplierAt α p)

/-- The steps of `roundToPrecision(x)` at precision `p` are exact, the values of the carrier
being read in the ordered field `K` through `val`: `math.Pow(10, p)` is `10^p`, the product
with it is the exact product, `int` drops the fraction of the product toward zero, and the
quotient is the exact quotient. -/
def ExactAt (val : α → K) (p : Int) (x : α) : Prop :=
  val (multiplierAt α p) = (10 : K) ^ p ∧
  val (x * multiplierAt α p) = val x * val (multiplierAt α p) ∧
  IsTrunc (scaledInt p x) (val (x * multiplierAt α p)) ∧
  val (Float64Ops.ofInt (scaledInt p x) / multiplierAt α p) =
    ((scaledInt p x : Int) : K) / val (multiplierAt α p)

end Exactness

/-- The integer square root, from the root of the quarter; the first argument bounds the depth
of the recursion. -/
def isqrtAux : Nat → Nat → Nat
  | 0, _ => 0
  | fuel + 1, n =>
    if n < 2 then n
    else if (2 * isqrtAux fuel (n / 4) + 1) * (2 * isqrtAux fuel (n / 4) + 1) ≤ n then
      2 * isqrtAux fuel (n / 4) + 1
    else 2 * isqrtAux fuel (n / 4)

/-- The largest natural number whose square is at most `n`. -/
def isqrt (n : Nat) : Nat := isqrtAux n n

/-- The conversion `int(x)` on exact numbers: the fraction is dropped; a value that does not
fit 64 bits gives `math.MinInt64`, as the conversion instruction of amd64 does. -/
def ratToInt (x : ℚ) : Int :=
  if -(2 ^ 63) - 1 < x ∧ x < 2 ^ 63 then (if 0 ≤ x then ⌊x⌋ else ⌈x⌉) else MinInt64

/-- A square root on exact numbers: the exact root of the square of a rational number,
otherwise the root rounded down to a multiple of `2^(-64)`; `0` for a negative number, which
has no root among the rational numbers. -/
def ratSqrt (x : ℚ) : ℚ :=
  if x ≤ 0 then 0
  else if isqrt x.num.toNat * isqrt x.num.toNat = x.num.toNat ∧ isqrt x.den * isqrt x.den = x.den
  then ((isqrt x.num.toNat : Nat) : ℚ) / ((isqrt x.den : Nat) : ℚ)
  else ((isqrt ⌊x * 4 ^ 64⌋.toNat : Nat) : ℚ) / 2 ^ 64

/-- The program on exact rational numbers: no operation rounds.  `math.Pow` is the exact power
with the whole part of the exponent (the program only passes whole exponents), so a power of
ten is never rounded and never underflows.  Division is the division of `ℚ`: it has no
infinite value, so the evaluations below use at least two numbers wherever the standard
deviation is read. -/
instance ratFloat64Ops : Float64Ops ℚ where
  ofInt k := (k : ℚ)
  toInt := ratToInt
  pow x y := x ^ ⌊y⌋
  sqrt := ratSqrt

/-! ## Shared array of the caller -/

section Caller

variable {α : Type} [Zero α] [Add α] [Sub α] [Mul α] [Div α] [LT α]
  [DecidableRel (fun a b : α => a < b)] [BEq α] [Float64Ops α]

/-- The elements the caller's slice `inputs` holds after the call `Compute(inputs)`.  The
assignment `s.numbers = inputs` copies the slice header, not the elements: the engine's field
and the caller's slice are one array, which `sort.Float64s` orders in place, so the caller
reads what the field `numbers` holds. -/
def callerAfter (s : statistics α) (inputs : List α) : Option (List α) :=
  (statistics.Compute s inputs).map fun s1 => s1.numbers

/-- An assignment `inputs[i] = v` by the caller after `Compute(inputs)`, seen from the engine:
the array is shared, so the element changes in the field `numbers`; no other field is
written. -/
def callerAssign (s : statistics α) (i : Nat) (v : α) : statistics α :=
  { s with numbers := s.numbers.set i v }

end Caller

/-! ## Infinite and not-a-number values -/

/-- The values of `float64` with exact finite numbers: a rational number, the two infinities
and not-a-number.  Rounding error and the sign of zero are left out. -/
inductive Ext where
  | fin (q : ℚ)
  | posInf
  | negInf
  | nan
  deriving DecidableEq

namespace Ext

/-- The negation. -/
def neg : Ext → Ext
  | fin q => fin (-q)
  | posInf => negInf
  | negInf => posInf
  | nan => nan

/-- The sum: infinities of opposite sign give not-a-number. -/
def add : Ext → Ext → Ext
  | fin a, fin b => fin (a + b)
  | nan, _ => nan
  | _, nan => nan
  | posInf, negInf => nan
  | negInf, posInf => nan
  | posInf, _ => posInf
  | negInf, _ => negInf
  | _, posInf => posInf
  | _, negInf => negInf

/-- The infinity with the sign of a non-zero rational number. -/
def infOfSign (q : ℚ) : Ext := if 0 < q then posInf else negInf

/-- The product: zero times an infinity gives not-a-number. -/
def mul : Ext → Ext → Ext
  | fin a, fin b => fin (a * b)
  | nan, _ => nan
  | _, nan => nan
  | posInf, posInf => posInf
  | negInf, negInf => posInf
  | posInf, negInf => negInf
  | negInf, posInf => negInf
  | fin a, posInf => if a = 0 then nan else infOfSign a
  | fin a, negInf => if a = 0 then nan else infOfSign (-a)
  | posInf, fin b => if b = 0 then nan else infOfSign b
  | negInf, fin b => if b = 0 then nan else infOfSign (-b)

/-- The quotient: a non-zero number over zero is an infinity, zero over zero and an infinity
over an infinity are not-a-number. -/
def div : Ext → Ext → Ext
  | fin a, fin b => if b = 0 then (if a = 0 then nan else infOfSign a) else fin (a / b)
  | nan, _ => nan
  | _, nan => nan
  | fin _, posInf => fin 0
  | fin _, negInf => fin 0
  | posInf, fin b => if 0 ≤ b then posInf else negInf
  | negInf, fin b => if 0 ≤ b then negInf else posInf
  | posInf, posInf => nan
  | posInf, negInf => nan
  | negInf, posInf => nan
  | negInf, negInf => nan

/-- The order `<`: false as soon as one side is not-a-number. -/
def lt : Ext → Ext → Bool
  | fin a, fin b => decide (a < b)
  | nan, _ => false
  | _, nan => false
  | negInf, negInf => false
  | negInf, _ => true
  | _, negInf => false
  | posInf, _ => false
  | _, posInf => true

/-- The comparison `==`: not-a-number is equal to nothing, itself included. -/
def beq : Ext → Ext → Bool
  | fin a, fin b => decide (a = b)
  | posInf, posInf => true
  | negInf, negInf => true
  | _, _ => false

/-- The conversion `int(x)`: the fraction is dropped; an infinity, not-a-number and a value
that does not fit 64 bits give `math.MinInt64`, as the conversion instruction of amd64 does. -/
def toInt : Ext → Int
  | fin q => ratToInt q
  | _ => MinInt64

/-- The function `math.Pow`, with its special cases in the order of the Go library; a finite
base with a finite exponent gives the exact power with the whole part of the exponent (the
program only passes whole exponents), so the underflow and overflow of `float64` are left
out. -/
def pow (x y : Ext) : Ext :=
  if y = fin 0 ∨ x = fin 1 then fin 1
  else if y = fin 1 then x
  else
    match x, y with
    | nan, _ => nan
    | _, nan => nan
    | fin a, fin b =>
      if a = 0 then (if b < 0 then posInf else fin 0)
      else if a < 0 ∧ ((⌊b⌋ : Int) : ℚ) ≠ b then nan
      else fin (a ^ ⌊b⌋)
    | fin a, posInf =>
      if a = 0 then fin 0 else if a = -1 then fin 1 else if |a| < 1 then fin 0 else posInf
    | fin a, negInf =>
      if a = 0 then posInf else if a = -1 then fin 1 else if |a| < 1 then posInf else fin 0
    | posInf, posInf => posInf
    | negInf, posInf => posInf
    | posInf, negInf => fin 0
    | negInf, negInf => fin 0
    | posInf, fin b => if b < 0 then fin 0 else posInf
    | negInf, fin b =>
      if b < 0 then fin 0
      else if ((⌊b⌋ : Int) : ℚ) = b ∧ ⌊b⌋ % 2 = 1 then negInf else posInf

/-- The function `math.Sqrt`: the root of a negative number is not-a-number. -/
def sqrt : Ext → Ext
  | fin q => if q < 0 then nan else fin (ratSqrt q)
  | posInf => posInf
  | negInf => nan
  | nan => nan

instance : Zero Ext := ⟨fin 0⟩
instance : Add Ext := ⟨add⟩
instance : Sub Ext := ⟨fun a b => add a (neg b)⟩
instance : Mul Ext := ⟨mul⟩
instance : Div Ext := ⟨div⟩
instance : LT Ext := ⟨fun a b => lt a b = true⟩
instance : DecidableRel (fun a b : Ext => a < b) := fun a b => inferInstanceAs (Decidable (lt a b = true))
instance : BEq Ext := ⟨beq⟩

/-- The program on `Ext`. -/
instance extFloat64Ops : Float64Ops Ext where
  ofInt k := fin (k : ℚ)
  toInt := toInt
  pow := pow
  sqrt := sqrt

end Ext

/-! ## Theorems -/

open statistics

section Generic

variable {α : Type} [Zero α] [Add α] [Sub α] [Mul α] [Div α] [LT α]
  [DecidableRel (fun a b : α => a < b)] [BEq α] [Float64Ops α]

theorem validInputs_iff (s : statistics α) : s.validInputs = true ↔ s.numbers ≠ [] := by
  simp [validInputs, List.length_pos]

theorem Float64s_length (x : List α) : (Float64s x).length = x.length := by
  simp [Float64s, List.length_insertionSort]

theorem Float64s_ne_nil {x : List α} (h : x ≠ []) : Float64s x ≠ [] := by
  intro h0
  have := Float64s_length x
  rw [h0] at this
  exact h (List.length_eq_zero.mp this.symm)

theorem computeSum_valid (s : statistics α) (h : s.numbers ≠ []) :
    s.computeSum = (s.roundToPrecision (s.numbers.foldl (fun sum x => sum + x) 0), none) := by
  have hv : s.validInputs = true := (validInputs_iff s).2 h
  simp [computeSum, hv]

theorem computeMean_valid (s : statistics α) (h : s.numbers ≠ []) :
    s.computeMean =
      ({ s with sum := s.roundToPrecision (s.numbers.foldl (fun sum x => sum + x) 0) },
        s.roundToPrecision (s.roundToPrecision (s.numbers.foldl (fun sum x => sum + x) 0) /
          Float64Ops.ofInt (s.numbers.length : Int)), none) := by
  have hv : s.validInputs = true := (validInputs_iff s).2 h
  simp [computeMean, hv, computeSum_valid s h, roundToPrecision]

theorem index_natCast (xs : List α) (i : Nat) : index xs (i : Int) = xs[i]? := by
  simp [index]



theorem computeMedian_odd (s : statistics α) (hodd : s.numbers.length % 2 = 1)
    (hlt : s.numbers.length / 2 < s.numbers.length) :
    s.computeMedian = some (s.roundToPrecision (s.numbers.get ⟨s.numbers.length / 2, hlt⟩), none) := by
  have hne : s.numbers ≠ [] := by
    intro h0; rw [h0] at hodd; simp at hodd
  have hv : s.validInputs = true := (validInputs_iff s).2 hne
  have h1 : ((s.numbers.length : Int) / 2) = ((s.numbers.length / 2 : Nat) : Int) := by norm_cast
  have h2 : ¬ ((s.numbers.length : Int) % 2 = 0) := by omega
  unfold computeMedian
  simp only [hv, h1, index_natCast, List.getElem?_eq_getElem hlt]
  simp [h2]

theorem computeMedian_even (s : statistics α) (hne : s.numbers ≠ [])
    (heven : s.numbers.length % 2 = 0)
    (hlt : s.numbers.length / 2 < s.numbers.length)
    (hlt1 : s.numbers.length / 2 - 1 < s.numbers.length) :
    s.computeMedian = some (s.roundToPrecision
      ((s.numbers.get ⟨s.numbers.length / 2, hlt⟩ + s.numbers.get ⟨s.numbers.length / 2 - 1, hlt1⟩)
        / Float64Ops.ofInt 2), none) := by
  have hv : s.validInputs = true := (validInputs_iff s).2 hne
  have hpos : 0 < s.numbers.length := List.length_pos.2 hne
  have h1 : ((s.numbers.length : Int) / 2) = ((s.numbers.length / 2 : Nat) : Int) := by norm_cast
  have h2 : ((s.numbers.length : Int) % 2 = 0) := by omega
  have h3 : ((s.numbers.length / 2 : Nat) : Int) - 1 = ((s.numbers.length / 2 - 1 : Nat) : Int) := by
    omega
  unfold computeMedian
  simp only [hv, h1, h3, index_natCast, List.getElem?_eq_getElem hlt,
    List.getElem?_eq_getElem hlt1]
  simp [h2]


theorem roundToPrecision_congr (s t : statistics α) (h : s.precision = t.precision) (x : α) :
    s.roundToPrecision x = t.roundToPrecision x := by
  simp [roundToPrecision, h]

theorem computeStandardDeviation_valid (s : statistics α) (h : s.numbers ≠ []) :
    s.computeStandardDeviation =
      (s.computeMean.1,
        s.roundToPrecision (Float64Ops.sqrt
          (s.numbers.foldl (fun sum number =>
              sum + Float64Ops.pow (number - s.computeMean.2.1) (Float64Ops.ofInt 2)) 0
            / Float64Ops.ofInt ((s.numbers.length : Int) - 1))), none) := by
  have hv : s.validInputs = true := (validInputs_iff s).2 h
  simp [computeStandardDeviation, hv, computeMean_valid s h, roundToPrecision]

theorem computeModes_valid (s : statistics α) (h : s.numbers ≠ []) :
    s.computeModes =
      ((((s.numbers.foldl countStep (([] : List (α × Int)), MinInt64)).1.filter
          (fun e => e.2 == (s.numbers.foldl countStep (([] : List (α × Int)), MinInt64)).2)).map
            (fun e => e.1)), none) := by
  have hv : s.validInputs = true := (validInputs_iff s).2 h
  simp [computeModes, hv]

theorem median_index_lt {n : Nat} (h : 0 < n) : n / 2 < n := by omega

theorem computeMedian_total (s : statistics α) (h : s.numbers ≠ []) :
    ∃ m, s.computeMedian = some (m, none) := by
  have hpos : 0 < s.numbers.length := List.length_pos.2 h
  rcases Nat.mod_two_eq_zero_or_one s.numbers.length with h0 | h1
  · exact ⟨_, computeMedian_even s h h0 (by omega) (by omega)⟩
  · exact ⟨_, computeMedian_odd s h1 (by omega)⟩

theorem computeMedian_congr (s t : statistics α) (hn : s.numbers = t.numbers)
    (hp : s.precision = t.precision) : s.computeMedian = t.computeMedian := by
  unfold computeMedian validInputs roundToPrecision
  rw [hn, hp]

theorem computeModes_congr (s t : statistics α) (hn : s.numbers = t.numbers) :
    s.computeModes = t.computeModes := by
  unfold computeModes validInputs
  rw [hn]

theorem computeMean_numbers (s : statistics α) : s.computeMean.1.numbers = s.numbers := by
  simp only [computeMean]; split_ifs <;> rfl

theorem computeMean_precision (s : statistics α) : s.computeMean.1.precision = s.precision := by
  simp only [computeMean]; split_ifs <;> rfl

theorem roundToPrecision_eq (s : statistics α) (x : α) :
    s.roundToPrecision x = roundAt s.precision x := rfl

/-- The state after `Compute` on a non-empty input, written out. -/
theorem Compute_nonempty (s : statistics α) (inputs : List α) (h : inputs ≠ []) :
    ∃ m : α,
      (∀ t : statistics α, t.numbers = Float64s inputs → t.precision = s.precision →
        t.computeMedian = some (m, none)) ∧
      Compute s inputs = some
        { numbers := Float64s inputs
          sum := roundAt s.precision ((Float64s inputs).foldl (fun sum x => sum + x) 0)
          mean := roundAt s.precision
            (roundAt s.precision ((Float64s inputs).foldl (fun sum x => sum + x) 0) /
              Float64Ops.ofInt ((Float64s inputs).length : Int))
          median := m
          standardDeviation := roundAt s.precision (Float64Ops.sqrt
            ((Float64s inputs).foldl (fun sum number => sum + Float64Ops.pow
              (number - roundAt s.precision
                (roundAt s.precision ((Float64s inputs).foldl (fun sum x => sum + x) 0) /
                  Float64Ops.ofInt ((Float64s inputs).length : Int))) (Float64Ops.ofInt 2)) 0 /
              Float64Ops.ofInt (((Float64s inputs).length : Int) - 1)))
          modes := modesOf (Float64s inputs)
          precision := s.precision
          err := s.err } := by
  have ha : Float64s inputs ≠ [] := Float64s_ne_nil h
  have hpos : 0 < (Float64s inputs).length := List.length_pos.2 ha
  have hpos0 : 0 < inputs.length := List.length_pos.2 h
  obtain ⟨m, hm⟩ := computeMedian_total
    ({ s with numbers := Float64s inputs } : statistics α) ha
  have hm2 : ∀ t : statistics α, t.numbers = Float64s inputs → t.precision = s.precision →
      t.computeMedian = some (m, none) := fun t h1 h2 =>
    (computeMedian_congr t ({ s with numbers := Float64s inputs } : statistics α) h1 h2).trans hm
  refine ⟨m, hm2, ?_⟩
  unfold Compute
  simp only [validInputs, gt_iff_lt, hpos0, decide_True, Bool.not_true, Bool.false_eq_true,
    if_false]
  rw [hm2 _ (by simp [computeMean_numbers]) (by simp [computeMean_precision])]
  simp [computeMean, computeSum, computeStandardDeviation, computeModes, validInputs, hpos,
    roundToPrecision_eq, modesOf]

theorem Compute_nil (s : statistics α) :
    Compute s [] = some { s with numbers := [], err := some emptyInputs } := by
  simp [Compute, validInputs]

/-- C1: on an engine freshly made by `NewStatistics`, for every precision and every input,
`Compute` returns and the error is set exactly when the input is empty. -/
theorem C1_err_iff_empty (precision : Int) (inputs : List α) :
    ∃ s1 : statistics α, Compute (NewStatistics precision) inputs = some s1 ∧
      (s1.err ≠ none ↔ inputs = []) := by
  by_cases h : inputs = []
  · subst h
    exact ⟨_, Compute_nil _, by simp⟩
  · obtain ⟨m, -, hC⟩ := Compute_nonempty (NewStatistics precision : statistics α) inputs h
    exact ⟨_, hC, by simp [NewStatistics, h]⟩

/-- C2 (amended): for every engine state and every non-empty input, `Compute` returns, and the
stored numbers, sum, mean, median, standard deviation, modes and precision are those a fresh
engine of the same precision reaches on that input; the error is the one held before the call. -/
theorem C2_independent_of_history (s : statistics α) (inputs : List α) (h : inputs ≠ []) :
    ∃ s1 f : statistics α, Compute s inputs = some s1 ∧
      Compute (NewStatistics s.precision) inputs = some f ∧
      s1.numbers = f.numbers ∧ s1.sum = f.sum ∧ s1.mean = f.mean ∧ s1.median = f.median ∧
      s1.standardDeviation = f.standardDeviation ∧ s1.modes = f.modes ∧
      s1.precision = f.precision ∧ f.err = none ∧ s1.err = s.err := by
  obtain ⟨m, hm, hC⟩ := Compute_nonempty s inputs h
  obtain ⟨m2, hm2, hF⟩ := Compute_nonempty (NewStatistics s.precision : statistics α) inputs h
  have e : m2 = m := by
    have h1 := hm ({ s with numbers := Float64s inputs } : statistics α) rfl rfl
    have h2 := hm2 ({ s with numbers := Float64s inputs } : statistics α) rfl rfl
    rw [h1] at h2
    simpa using h2.symm
  subst e
  exact ⟨_, _, hC, hF, rfl, rfl, rfl, rfl, rfl, rfl, rfl, rfl, rfl⟩

/-- C3 (amended): for every engine state, `Compute` with the empty sequence returns, sets the
error and empties the stored numbers; sum, mean, median, standard deviation and modes keep the
values held before the call, so they are unset when they were unset before the call. -/
theorem C3_failed_call_keeps_results (s : statistics α) :
    ∃ s1 : statistics α, Compute s [] = some s1 ∧ s1.err = some emptyInputs ∧ s1.numbers = [] ∧
      s1.sum = s.sum ∧ s1.mean = s.mean ∧ s1.median = s.median ∧
      s1.standardDeviation = s.standardDeviation ∧ s1.modes = s.modes :=
  ⟨_, Compute_nil s, rfl, rfl, rfl, rfl, rfl, rfl, rfl⟩

end Generic

/-! ## The two loops of `computeModes` -/

section Modes

variable {β : Type} [DecidableEq β]

theorem mapGet_nil (k : β) : mapGet ([] : List (β × Int)) k = none := rfl

theorem mapGet_cons (e : β × Int) (m : List (β × Int)) (k : β) :
    mapGet (e :: m) k = if e.1 = k then some e.2 else mapGet m k := by
  unfold mapGet
  by_cases h : e.1 = k <;> simp [List.find?_cons, h]

theorem mapGet_eq_none_iff (m : List (β × Int)) (k : β) :
    mapGet m k = none ↔ k ∉ m.map Prod.fst := by
  induction m with
  | nil => simp [mapGet_nil]
  | cons e m ih =>
    rw [mapGet_cons]
    by_cases h : e.1 = k
    · simp [h]
    · simp [h, ih, Ne.symm h]

theorem mapGet_append_singleton (m : List (β × Int)) (k k2 : β) (v : Int)
    (hk : k ∉ m.map Prod.fst) :
    mapGet (m ++ [(k, v)]) k2 = if k2 = k then some v else mapGet m k2 := by
  induction m with
  | nil =>
    rw [List.nil_append, mapGet_cons, mapGet_nil]
    by_cases h : k2 = k
    · simp [h]
    · simp [h, Ne.symm h]
  | cons e m ih =>
    have hk1 : ¬ e.1 = k := fun h => hk (by simp [← h])
    have hk2 : k ∉ m.map Prod.fst := fun h => hk (by simp at h ⊢; exact Or.inr h)
    rw [List.cons_append, mapGet_cons, mapGet_cons, ih hk2]
    by_cases h : e.1 = k2
    · have : ¬ k2 = k := fun h2 => hk1 (h.trans h2)
      simp [h, this]
    · simp [h]

theorem mapGet_map_replace (m : List (β × Int)) (k k2 : β) (v : Int) :
    mapGet (m.map (fun e => if e.1 == k then (e.1, v) else e)) k2 =
      if k2 = k then (mapGet m k).map (fun _ => v) else mapGet m k2 := by
  induction m with
  | nil => simp [mapGet_nil]
  | cons e m ih =>
    rw [List.map_cons, mapGet_cons, mapGet_cons, mapGet_cons, ih]
    by_cases h1 : e.1 = k
    · by_cases h2 : k2 = k
      · simp [h1, h2]
      · have : ¬ k = k2 := fun h => h2 h.symm
        simp [h1, h2, this]
    · by_cases h2 : k2 = k
      · have : ¬ e.1 = k2 := fun h => h1 (h.trans h2)
        simp [h1, h2]
      · simp [h1, h2]

theorem any_key_iff (m : List (β × Int)) (k : β) :
    m.any (fun e => e.1 == k) = true ↔ k ∈ m.map Prod.fst := by
  rw [List.any_eq_true, List.mem_map]
  constructor
  · rintro ⟨e, he, h⟩
    exact ⟨e, he, by simpa using h⟩
  · rintro ⟨e, he, h⟩
    exact ⟨e, he, by simpa using h⟩

theorem mapGet_mapSet (m : List (β × Int)) (k k2 : β) (v : Int) :
    mapGet (mapSet m k v) k2 = if k2 = k then some v else mapGet m k2 := by
  unfold mapSet
  by_cases h : k ∈ m.map Prod.fst
  · rw [if_pos ((any_key_iff m k).2 h), mapGet_map_replace]
    by_cases h2 : k2 = k
    · have hs : mapGet m k ≠ none := fun h0 => (mapGet_eq_none_iff m k).1 h0 h
      obtain ⟨c, hc⟩ := Option.ne_none_iff_exists'.1 hs
      simp [h2, hc]
    · simp [h2]
  · rw [if_neg (fun h0 => h ((any_key_iff m k).1 h0)), mapGet_append_singleton m k k2 v h]

theorem keys_mapSet (m : List (β × Int)) (k : β) (v : Int) :
    (mapSet m k v).map Prod.fst =
      if k ∈ m.map Prod.fst then m.map Prod.fst else m.map Prod.fst ++ [k] := by
  unfold mapSet
  by_cases h : k ∈ m.map Prod.fst
  · rw [if_pos ((any_key_iff m k).2 h), if_pos h, List.map_map]
    apply List.map_congr_left
    intro e _
    by_cases h1 : e.1 = k <;> simp [h1]
  · rw [if_neg (fun h0 => h ((any_key_iff m k).1 h0)), if_neg h]
    simp

theorem keys_mapSet_nodup (m : List (β × Int)) (k : β) (v : Int)
    (h : (m.map Prod.fst).Nodup) : ((mapSet m k v).map Prod.fst).Nodup := by
  rw [keys_mapSet]
  by_cases hk : k ∈ m.map Prod.fst
  · rw [if_pos hk]; exact h
  · rw [if_neg hk]
    exact List.Nodup.append h (List.nodup_singleton k) (by simpa using hk)

theorem mem_iff_mapGet (m : List (β × Int)) (h : (m.map Prod.fst).Nodup) (k : β) (c : Int) :
    (k, c) ∈ m ↔ mapGet m k = some c := by
  induction m with
  | nil => simp [mapGet_nil]
  | cons e m ih =>
    have hn : e.1 ∉ m.map Prod.fst ∧ (m.map Prod.fst).Nodup := by
      rw [List.map_cons] at h
      exact List.nodup_cons.1 h
    rw [mapGet_cons, List.mem_cons]
    by_cases h1 : e.1 = k
    · have hnot : (k, c) ∉ m := fun hm => hn.1 (by
        rw [h1]; exact List.mem_map.2 ⟨(k, c), hm, rfl⟩)
      rw [if_pos h1]
      constructor
      · rintro (h2 | h2)
        · rw [← h2]
        · exact absurd h2 hnot
      · intro h2
        left
        have : e.2 = c := by simpa using h2
        rw [← h1, ← this]
    · rw [if_neg h1, ← ih hn.2]
      constructor
      · rintro (h2 | h2)
        · exact absurd (by rw [← h2]) h1
        · exact h2
      · exact Or.inr

theorem countInv_nil : CountInv ([] : List β) (([] : List (β × Int)), MinInt64) := by
  refine ⟨by simp, fun k => by simp [mapGet_nil], by simp, Or.inl ⟨rfl, rfl⟩⟩

theorem countStep_fst (l : List β) (st : List (β × Int) × Int) (x : β)
    (h : CountInv l st) :
    (countStep st x).1 = mapSet st.1 x ((l.count x : Int) + 1) := by
  unfold countStep
  simp only
  rw [h.2.1 x]
  by_cases hx : x ∈ l
  · simp [hx]
  · simp [hx, List.count_eq_zero_of_not_mem hx]

theorem countStep_snd (l : List β) (st : List (β × Int) × Int) (x : β)
    (h : CountInv l st) :
    (countStep st x).2 =
      if (l.count x : Int) + 1 > st.2 then (l.count x : Int) + 1 else st.2 := by
  have h1 := countStep_fst l st x h
  have h2 : mapGet (countStep st x).1 x = some ((l.count x : Int) + 1) := by
    rw [h1, mapGet_mapSet]; simp
  have h3 : (countStep st x).2 =
      if (mapGet (countStep st x).1 x).getD 0 > st.2 then (mapGet (countStep st x).1 x).getD 0
      else st.2 := rfl
  rw [h3, h2]
  rfl

theorem countInv_step (l : List β) (st : List (β × Int) × Int) (x : β)
    (h : CountInv l st) : CountInv (l ++ [x]) (countStep st x) := by
  have h1 := countStep_fst l st x h
  have h2 := countStep_snd l st x h
  have hcx : ((l ++ [x]).count x : Int) = (l.count x : Int) + 1 := by
    simp [List.count_append]
  have hcw : ∀ w, w ≠ x → (l ++ [x]).count w = l.count w := by
    intro w hw
    simp [List.count_append, List.count_singleton, Ne.symm hw]
  have hmin : MinInt64 < (l.count x : Int) + 1 := by
    have : (0 : Int) ≤ (l.count x : Int) := Int.natCast_nonneg _
    unfold MinInt64; omega
  refine ⟨?_, ?_, ?_, ?_⟩
  · rw [h1]; exact keys_mapSet_nodup _ _ _ h.1
  · intro k
    rw [h1, mapGet_mapSet]
    by_cases hk : k = x
    · subst hk
      simp [hcx]
    · rw [if_neg hk, h.2.1 k, hcw k hk]
      simp [hk]
  · intro w hw
    rw [h2]
    by_cases hk : w = x
    · subst hk
      rw [hcx]
      split_ifs with hgt
      · exact le_refl _
      · omega
    · have hwl : w ∈ l := by
        rcases List.mem_append.1 hw with h0 | h0
        · exact h0
        · exact absurd (by simpa using h0) hk
      rw [hcw w hk]
      have := h.2.2.1 w hwl
      split_ifs with hgt
      · omega
      · exact this
  · right
    rw [h2]
    by_cases hgt : (l.count x : Int) + 1 > st.2
    · rw [if_pos hgt]
      exact ⟨x, by simp, hcx⟩
    · rw [if_neg hgt]
      rcases h.2.2.2 with ⟨-, hmx⟩ | ⟨v, hv, hcv⟩
      · rw [hmx] at hgt
        exact absurd hmin hgt
      · have hvx : v ≠ x := by
          intro hvx
          subst hvx
          omega
        exact ⟨v, List.mem_append_left _ hv, by rw [hcw v hvx]; exact hcv⟩

theorem countInv_foldl (l pre : List β) (st : List (β × Int) × Int) (h : CountInv pre st) :
    CountInv (pre ++ l) (l.foldl countStep st) := by
  induction l generalizing pre st with
  | nil => simpa using h
  | cons x l ih =>
    have := ih (pre ++ [x]) (countStep st x) (countInv_step pre st x h)
    simpa using this

theorem modesOf_nodup (l : List β) : (modesOf l).Nodup := by
  have h := countInv_foldl l [] _ countInv_nil
  unfold modesOf
  exact List.Nodup.sublist ((List.filter_sublist _).map Prod.fst) h.1

theorem mem_modesOf_iff (l : List β) (v : β) :
    v ∈ modesOf l ↔ v ∈ l ∧ ∀ w, l.count w ≤ l.count v := by
  have h := countInv_foldl l [] _ countInv_nil
  rw [List.nil_append] at h
  unfold modesOf
  generalize l.foldl countStep (([] : List (β × Int)), MinInt64) = st at h
  have hmem : v ∈ (st.1.filter (fun e => e.2 == st.2)).map (fun e => e.1) ↔
      mapGet st.1 v = some st.2 := by
    rw [← mem_iff_mapGet st.1 h.1]
    simp only [List.mem_map, List.mem_filter, beq_iff_eq]
    constructor
    · rintro ⟨e, ⟨he, h2⟩, h1⟩
      rw [← h1, ← h2]; exact he
    · intro he
      exact ⟨(v, st.2), ⟨he, rfl⟩, rfl⟩
  rw [hmem, h.2.1 v]
  constructor
  · intro hv
    by_cases hvl : v ∈ l
    · rw [if_pos hvl] at hv
      have hc : (l.count v : Int) = st.2 := by simpa using hv
      refine ⟨hvl, fun w => ?_⟩
      by_cases hwl : w ∈ l
      · have := h.2.2.1 w hwl
        omega
      · rw [List.count_eq_zero_of_not_mem hwl]; exact Nat.zero_le _
    · rw [if_neg hvl] at hv
      exact absurd hv (by simp)
  · rintro ⟨hvl, hmax⟩
    rw [if_pos hvl]
    rcases h.2.2.2 with ⟨hnil, -⟩ | ⟨u, hu, hcu⟩
    · rw [hnil] at hvl; exact absurd hvl (by simp)
    · have h1 := h.2.2.1 v hvl
      have h2 := hmax u
      congr 1
      omega

theorem modesOf_ne_nil (l : List β) (hl : l ≠ []) : modesOf l ≠ [] := by
  have h := countInv_foldl l [] _ countInv_nil
  rw [List.nil_append] at h
  rcases h.2.2.2 with ⟨hnil, -⟩ | ⟨u, hu, hcu⟩
  · exact absurd hnil hl
  · have : u ∈ modesOf l := by
      rw [mem_modesOf_iff]
      refine ⟨hu, fun w => ?_⟩
      by_cases hwl : w ∈ l
      · have := h.2.2.1 w hwl
        omega
      · rw [List.count_eq_zero_of_not_mem hwl]; exact Nat.zero_le _
    intro h0
    rw [h0] at this
    exact absurd this (by simp)

end Modes

/-! ## Exact arithmetic: sum, mean, median, standard deviation -/

section Exact

variable {α : Type} [LinearOrderedField α] [Float64Ops α]

theorem Float64s_perm {β : Type} [LT β] [DecidableRel (fun a b : β => a < b)] [BEq β]
    (x : List β) : (Float64s x).Perm x := by
  unfold Float64s
  exact List.perm_insertionSort _ x

theorem isNaN_eq_false (a : α) : isNaN a = false := by
  simp [isNaN]

theorem Less_eq_false_iff (a b : α) : Less b a = false ↔ a ≤ b := by
  simp [Less, isNaN_eq_false]

theorem Float64s_eq_insertionSort (x : List α) :
    Float64s x = x.insertionSort (fun a b => a ≤ b) := by
  unfold Float64s
  induction x with
  | nil => rfl
  | cons a l ih =>
    simp only [List.insertionSort]
    rw [ih]
    generalize List.insertionSort (fun a b => a ≤ b) l = t
    induction t with
    | nil => rfl
    | cons b t iht =>
      simp only [List.orderedInsert]
      by_cases hab : a ≤ b
      · simp [hab, (Less_eq_false_iff a b).2 hab]
      · have : ¬ (Less b a = false) := fun h => hab ((Less_eq_false_iff a b).1 h)
        simp [hab, this, iht]

theorem Float64s_sorted (x : List α) : (Float64s x).Sorted (fun a b => a ≤ b) := by
  rw [Float64s_eq_insertionSort]
  exact List.sorted_insertionSort _ x

theorem Float64s_eq_of_sorted_perm {x a : List α} (hs : a.Sorted (fun u v => u ≤ v))
    (hp : a.Perm x) : Float64s x = a :=
  List.eq_of_perm_of_sorted ((Float64s_perm x).trans hp.symm) (Float64s_sorted x) hs

theorem foldl_add_eq_sum (l : List α) : l.foldl (fun sum x => sum + x) 0 = l.sum := by
  rw [List.sum_eq_foldl]

theorem foldl_Float64s_sum (x : List α) :
    (Float64s x).foldl (fun sum x => sum + x) 0 = x.sum := by
  rw [foldl_add_eq_sum]
  exact (Float64s_perm x).sum_eq

theorem toInt_isTrunc (h : ExactArith α) (y : α) (hy : |y| < 2 ^ 63) :
    IsTrunc (Float64Ops.toInt y) y := by
  have h1 := abs_lt.1 hy
  refine ⟨fun h0 => h.toInt_nonneg y h0 h1.2, fun h0 => h.toInt_nonpos y h0 ?_⟩
  linarith [h1.1]

theorem roundAt_exact (h : ExactArith α) (p : Int) (x : α) :
    roundAt p x = ((Float64Ops.toInt (x * (10 : α) ^ p) : Int) : α) / (10 : α) ^ p := by
  unfold roundAt
  rw [h.pow_ten, h.ofInt_eq]

/-- C5: for every non-empty input of length `n`, `Compute` returns and the stored mean is
`roundToPrecision(S / float64(n))` where `S` is the stored sum, itself
`roundToPrecision` of the sum of the inputs: the mean divides the rounded sum. -/
theorem C5_mean (s : statistics α) (inputs : List α) (hne : inputs ≠ []) :
    ∃ s1 : statistics α, Compute s inputs = some s1 ∧
      s1.sum = s1.roundToPrecision inputs.sum ∧
      s1.mean = s1.roundToPrecision (s1.sum / Float64Ops.ofInt (inputs.length : Int)) ∧
      s1.mean = s1.roundToPrecision
        (s1.roundToPrecision inputs.sum / Float64Ops.ofInt (inputs.length : Int)) := by
  obtain ⟨m, -, hC⟩ := Compute_nonempty s inputs hne
  refine ⟨_, hC, ?_, ?_, ?_⟩ <;>
    simp only [roundToPrecision_eq, foldl_Float64s_sum, Float64s_length]

/-- C6: for every non-empty input of length `n` and `a` its ascending sort, `Compute` returns
(no index is out of range: `n / 2 < n`, and `1 ≤ n / 2` when `n` is even) and the stored median
is `roundToPrecision(a[n/2])` for odd `n` and `roundToPrecision((a[n/2] + a[n/2 - 1]) / 2)`
for even `n`. -/
theorem C6_median (s : statistics α) (inputs a : List α) (hne : inputs ≠ [])
    (hsorted : a.Sorted (fun u v => u ≤ v)) (hperm : a.Perm inputs) :
    ∃ s1 : statistics α, Compute s inputs = some s1 ∧
      ∃ hmid : inputs.length / 2 < a.length,
        (inputs.length % 2 = 1 →
          s1.median = s1.roundToPrecision (a.get ⟨inputs.length / 2, hmid⟩)) ∧
        (inputs.length % 2 = 0 →
          1 ≤ inputs.length / 2 ∧
          ∃ hbefore : inputs.length / 2 - 1 < a.length,
            s1.median = s1.roundToPrecision
              ((a.get ⟨inputs.length / 2, hmid⟩ + a.get ⟨inputs.length / 2 - 1, hbefore⟩)
                / Float64Ops.ofInt 2)) := by
  obtain ⟨m, hm, hC⟩ := Compute_nonempty s inputs hne
  have ha : Float64s inputs = a := Float64s_eq_of_sorted_perm hsorted hperm
  have hlen : a.length = inputs.length := hperm.length_eq
  have hpos : 0 < inputs.length := List.length_pos.2 hne
  have hane : a ≠ [] := by
    intro h0; rw [h0] at hlen; simp at hlen; omega
  have hmed := hm ({ s with numbers := a } : statistics α) ha.symm rfl
  refine ⟨_, hC, by omega, ?_, ?_⟩
  · intro hodd
    have := computeMedian_odd ({ s with numbers := a } : statistics α) (by simpa [hlen] using hodd)
      (by simp only [hlen]; omega)
    rw [hmed] at this
    simp only [Option.some.injEq, Prod.mk.injEq, and_true] at this
    simp only [this, roundToPrecision_eq, hlen]
  · intro heven
    refine ⟨by omega, by omega, ?_⟩
    have := computeMedian_even ({ s with numbers := a } : statistics α) hane
      (by simpa [hlen] using heven) (by simp only [hlen]; omega) (by simp only [hlen]; omega)
    rw [hmed] at this
    simp only [Option.some.injEq, Prod.mk.injEq, and_true] at this
    simp only [this, roundToPrecision_eq, hlen]

theorem foldl_add_map_eq_sum (f : α → α) (l : List α) :
    l.foldl (fun sum number => sum + f number) 0 = (l.map f).sum := by
  rw [List.sum_eq_foldl, List.foldl_map]

/-- C7: for every input of length `n ≥ 2`, `Compute` returns and the stored standard deviation
is `roundToPrecision(sqrt(Σ (x - m)^2 / (n - 1)))`, the sum ranging over the inputs, `m` being
the stored mean (the rounded mean of the rounded sum) and the divisor being `n - 1`. -/
theorem C7_standardDeviation (h : ExactArith α) (s : statistics α) (inputs : List α)
    (hn : 2 ≤ inputs.length) :
    ∃ s1 : statistics α, Compute s inputs = some s1 ∧
      s1.mean = s1.roundToPrecision
        (s1.roundToPrecision inputs.sum / Float64Ops.ofInt (inputs.length : Int)) ∧
      s1.standardDeviation = s1.roundToPrecision (Float64Ops.sqrt
        ((inputs.map fun x => (x - s1.mean) ^ 2).sum / ((inputs.length : α) - 1))) := by
  have hne : inputs ≠ [] := by
    intro h0; rw [h0] at hn; simp at hn
  obtain ⟨m, -, hC⟩ := Compute_nonempty s inputs hne
  refine ⟨_, hC, ?_, ?_⟩
  · simp only [roundToPrecision_eq, foldl_Float64s_sum, Float64s_length]
  · simp only [roundToPrecision_eq, h.pow_two, foldl_add_map_eq_sum, Float64s_length]
    rw [((Float64s_perm inputs).map _).sum_eq, h.ofInt_eq ((inputs.length : Int) - 1)]
    simp only [foldl_Float64s_sum, Int.cast_sub, Int.cast_natCast, Int.cast_one]

theorem modes_of_Compute (s : statistics α) (inputs : List α) (hne : inputs ≠ []) :
    ∃ s1 : statistics α, Compute s inputs = some s1 ∧ s1.modes.Nodup ∧
      (∀ v, v ∈ s1.modes ↔ v ∈ inputs ∧ ∀ w, inputs.count w ≤ inputs.count v) ∧
      s1.modes ≠ [] := by
  obtain ⟨m, -, hC⟩ := Compute_nonempty s inputs hne
  have hp := Float64s_perm inputs
  refine ⟨_, hC, modesOf_nodup _, fun v => ?_, modesOf_ne_nil _ (Float64s_ne_nil hne)⟩
  show v ∈ modesOf (Float64s inputs) ↔ _
  rw [mem_modesOf_iff, hp.mem_iff, hp.count_eq v]
  constructor
  · rintro ⟨h1, h2⟩
    exact ⟨h1, fun w => by rw [← hp.count_eq w]; exact h2 w⟩
  · rintro ⟨h1, h2⟩
    exact ⟨h1, fun w => by rw [hp.count_eq w]; exact h2 w⟩

theorem roundAt_bounds (h : ExactArith α) (p : Nat) (x : α)
    (hx : |x * (10 : α) ^ p| < 2 ^ 63) :
    |roundAt (p : Int) x| ≤ |x| ∧ (0 ≤ x → 0 ≤ roundAt (p : Int) x) ∧
      (x ≤ 0 → roundAt (p : Int) x ≤ 0) ∧ |x - roundAt (p : Int) x| < 1 / (10 : α) ^ p := by
  have hT : (0 : α) < (10 : α) ^ p := by positivity
  have ht := toInt_isTrunc h _ hx
  rw [roundAt_exact h, zpow_natCast]
  generalize Float64Ops.toInt (x * (10 : α) ^ p) = k at ht
  rcases le_total 0 x with h0 | h0
  · have hy : 0 ≤ x * (10 : α) ^ p := mul_nonneg h0 hT.le
    obtain ⟨hk1, hk2⟩ := ht.1 hy
    have hk0 : (0 : α) ≤ (k : α) := by
      have : (-1 : Int) < k := by
        have : ((-1 : Int) : α) < (k : α) := by push_cast; linarith
        exact_mod_cast this
      have : (0 : Int) ≤ k := by omega
      exact_mod_cast this
    have hr0 : 0 ≤ (k : α) / (10 : α) ^ p := div_nonneg hk0 hT.le
    have hrx : (k : α) / (10 : α) ^ p ≤ x := by
      rw [div_le_iff₀ hT]; exact hk1
    refine ⟨?_, fun _ => hr0, fun hx0 => ?_, ?_⟩
    · rw [abs_of_nonneg hr0, abs_of_nonneg h0]; exact hrx
    · have : x = 0 := le_antisymm hx0 h0
      linarith
    · rw [abs_of_nonneg (by linarith), sub_lt_iff_lt_add, ← add_div, lt_div_iff₀ hT]
      linarith
  · have hy : x * (10 : α) ^ p ≤ 0 := mul_nonpos_of_nonpos_of_nonneg h0 hT.le
    obtain ⟨hk1, hk2⟩ := ht.2 hy
    have hk0 : (k : α) ≤ 0 := by
      have : k < 1 := by
        have : (k : α) < ((1 : Int) : α) := by push_cast; linarith
        exact_mod_cast this
      have : k ≤ 0 := by omega
      exact_mod_cast this
    have hr0 : (k : α) / (10 : α) ^ p ≤ 0 := div_nonpos_of_nonpos_of_nonneg hk0 hT.le
    have hrx : x ≤ (k : α) / (10 : α) ^ p := by
      rw [le_div_iff₀ hT]; exact hk1
    refine ⟨?_, fun hx0 => ?_, fun _ => hr0, ?_⟩
    · rw [abs_of_nonpos hr0, abs_of_nonpos h0]; linarith
    · have : x = 0 := le_antisymm h0 hx0
      linarith
    · rw [abs_of_nonpos (by linarith), neg_sub, sub_lt_iff_lt_add, ← sub_lt_iff_lt_add',
        div_sub_div_same, div_lt_iff₀ hT]
      linarith

theorem toInt_eq_of_bounds (h : ExactArith α) (y : α) (k : Int) (hy : |y| < 2 ^ 63)
    (hk : IsTrunc k y) : Float64Ops.toInt y = k := by
  have ht := toInt_isTrunc h y hy
  generalize Float64Ops.toInt y = j at ht
  rcases le_total 0 y with h0 | h0
  · obtain ⟨a1, a2⟩ := ht.1 h0
    obtain ⟨b1, b2⟩ := hk.1 h0
    have h1 : (j : α) < (k : α) + 1 := by linarith
    have h2 : (k : α) < (j : α) + 1 := by linarith
    have h1' : j < k + 1 := by exact_mod_cast h1
    have h2' : k < j + 1 := by exact_mod_cast h2
    omega
  · obtain ⟨a1, a2⟩ := ht.2 h0
    obtain ⟨b1, b2⟩ := hk.2 h0
    have h1 : (j : α) - 1 < (k : α) := by linarith
    have h2 : (k : α) - 1 < (j : α) := by linarith
    have h1' : j - 1 < k := by exact_mod_cast h1
    have h2' : k - 1 < j := by exact_mod_cast h2
    omega

theorem roundAt_eq_of_trunc (h : ExactArith α) (p : Nat) (x : α) (k : Int)
    (hy : |x * (10 : α) ^ p| < 2 ^ 63) (hk : IsTrunc k (x * (10 : α) ^ p)) :
    roundAt (p : Int) x = (k : α) / (10 : α) ^ p := by
  rw [roundAt_exact h, zpow_natCast, toInt_eq_of_bounds h _ k hy hk]

theorem isTrunc_intCast (k : Int) : IsTrunc k (k : α) :=
  ⟨fun _ => ⟨le_refl _, by linarith⟩, fun _ => ⟨le_refl _, by linarith⟩⟩

theorem eq_singleton_of_nodup {l : List α} {a : α} (hn : l.Nodup) (hm : ∀ v, v ∈ l ↔ v = a) :
    l = [a] := by
  cases l with
  | nil => exact absurd ((hm a).2 rfl) (by simp)
  | cons b t =>
    have hb : b = a := (hm b).1 (by simp)
    subst hb
    have ht : t = [] := by
      cases t with
      | nil => rfl
      | cons c t2 =>
        have hc : c = b := (hm c).1 (by simp)
        subst hc
        exact absurd hn (by simp)
    rw [ht]

theorem modesOf_scenario : modesOf ([2, 4, 4, 4, 5, 5, 7, 9] : List α) = [4] := by
  apply eq_singleton_of_nodup (modesOf_nodup _)
  intro v
  rw [mem_modesOf_iff]
  have c2 : ([2, 4, 4, 4, 5, 5, 7, 9] : List α).count 2 = 1 := by
    simp [List.count_cons]
  have c4 : ([2, 4, 4, 4, 5, 5, 7, 9] : List α).count 4 = 3 := by
    simp [List.count_cons]
  have c5 : ([2, 4, 4, 4, 5, 5, 7, 9] : List α).count 5 = 2 := by
    simp [List.count_cons]
  have c7 : ([2, 4, 4, 4, 5, 5, 7, 9] : List α).count 7 = 1 := by
    simp [List.count_cons]
  have c9 : ([2, 4, 4, 4, 5, 5, 7, 9] : List α).count 9 = 1 := by
    simp [List.count_cons]
  have hmem : ∀ w : α, w ∈ ([2, 4, 4, 4, 5, 5, 7, 9] : List α) →
      w = 2 ∨ w = 4 ∨ w = 5 ∨ w = 7 ∨ w = 9 := by
    intro w hw
    simp only [List.mem_cons, List.mem_singleton, List.not_mem_nil, or_false] at hw
    rcases hw with e | e | e | e | e | e | e | e
    · exact Or.inl e
    · exact Or.inr (Or.inl e)
    · exact Or.inr (Or.inl e)
    · exact Or.inr (Or.inl e)
    · exact Or.inr (Or.inr (Or.inl e))
    · exact Or.inr (Or.inr (Or.inl e))
    · exact Or.inr (Or.inr (Or.inr (Or.inl e)))
    · exact Or.inr (Or.inr (Or.inr (Or.inr e)))
  constructor
  · rintro ⟨hv, hmax⟩
    have h4 := hmax 4
    rw [c4] at h4
    rcases hmem v hv with e | e | e | e | e
    · rw [e, c2] at h4; omega
    · exact e
    · rw [e, c5] at h4; omega
    · rw [e, c7] at h4; omega
    · rw [e, c9] at h4; omega
  · intro e
    subst e
    refine ⟨by simp, fun w => ?_⟩
    rw [c4]
    by_cases hw : w ∈ ([2, 4, 4, 4, 5, 5, 7, 9] : List α)
    · rcases hmem w hw with e | e | e | e | e
      · rw [e, c2]; omega
      · rw [e, c4]
      · rw [e, c5]; omega
      · rw [e, c7]; omega
      · rw [e, c9]; omega
    · rw [List.count_eq_zero_of_not_mem hw]; omega

/-- C10: in exact arithmetic where `math.Sqrt(32/7)` is non-negative and its square is within
`0.001` of `32/7`, `Compute` on `[2,4,4,4,5,5,7,9]` with precision 2 returns without error and
stores sum 40, mean 5.00, median 4.50, the single mode 4 and standard deviation 2.13. -/
theorem C10_scenario (h : ExactArith α)
    (hsqrt : 0 ≤ (Float64Ops.sqrt (32 / 7 : α) : α) ∧
      |(Float64Ops.sqrt (32 / 7 : α) : α) ^ 2 - 32 / 7| ≤ 1 / 1000) :
    ∃ s1 : statistics α, Compute (NewStatistics 2) [2, 4, 4, 4, 5, 5, 7, 9] = some s1 ∧
      s1.err = none ∧ s1.sum = 40 ∧ s1.mean = 5 ∧ s1.median = 9 / 2 ∧ s1.modes = [4] ∧
      s1.standardDeviation = 213 / 100 := by
  have hne : ([2, 4, 4, 4, 5, 5, 7, 9] : List α) ≠ [] := by simp
  obtain ⟨m, hm, hC⟩ := Compute_nonempty (NewStatistics 2 : statistics α) _ hne
  have hsort : Float64s ([2, 4, 4, 4, 5, 5, 7, 9] : List α) = [2, 4, 4, 4, 5, 5, 7, 9] := by
    apply Float64s_eq_of_sorted_perm _ (List.Perm.refl _)
    simp [List.Sorted]
    norm_num
  have hprec : (NewStatistics 2 : statistics α).precision = ((2 : Nat) : Int) := rfl
  have hlen : (([2, 4, 4, 4, 5, 5, 7, 9] : List α).length : Int) = 8 := rfl
  have hsum : ([2, 4, 4, 4, 5, 5, 7, 9] : List α).foldl (fun sum x => sum + x) 0 = 40 := by
    simp only [List.foldl]; norm_num
  have r40 : roundAt (((2 : Nat) : Int)) (40 : α) = 40 := by
    rw [roundAt_eq_of_trunc h 2 40 4000 (by rw [abs_lt]; constructor <;> norm_num)
      (by have := isTrunc_intCast (α := α) 4000; norm_num at this ⊢; exact this)]
    norm_num
  have r5 : roundAt (((2 : Nat) : Int)) (5 : α) = 5 := by
    rw [roundAt_eq_of_trunc h 2 5 500 (by rw [abs_lt]; constructor <;> norm_num)
      (by have := isTrunc_intCast (α := α) 500; norm_num at this ⊢; exact this)]
    norm_num
  have r45 : roundAt (((2 : Nat) : Int)) (9 / 2 : α) = 9 / 2 := by
    rw [roundAt_eq_of_trunc h 2 (9 / 2) 450 (by rw [abs_lt]; constructor <;> norm_num)
      (by have := isTrunc_intCast (α := α) 450; norm_num at this ⊢; exact this)]
    norm_num
  have hmean : roundAt (((2 : Nat) : Int)) ((40 : α) / Float64Ops.ofInt 8) = 5 := by
    rw [h.ofInt_eq]
    have : (40 : α) / ((8 : Int) : α) = 5 := by norm_num
    rw [this, r5]
  have hr1 : (213 / 100 : α) < Float64Ops.sqrt (32 / 7 : α) := by
    by_contra hcon
    have hle := not_lt.1 hcon
    have h2 := (abs_le.1 hsqrt.2).1
    nlinarith [hsqrt.1]
  have hr2 : (Float64Ops.sqrt (32 / 7 : α) : α) < 214 / 100 := by
    by_contra hcon
    have hle := not_lt.1 hcon
    have h2 := (abs_le.1 hsqrt.2).2
    nlinarith [hsqrt.1]
  have rsd : roundAt (((2 : Nat) : Int)) (Float64Ops.sqrt (32 / 7 : α) : α) = 213 / 100 := by
    rw [roundAt_eq_of_trunc h 2 _ 213 (by rw [abs_lt]; constructor <;> norm_num <;> linarith)
      ⟨fun _ => ⟨by norm_num; linarith, by norm_num; linarith⟩,
        fun hh => absurd hh (by norm_num; linarith)⟩]
    norm_num
  have hsq : ([2, 4, 4, 4, 5, 5, 7, 9] : List α).foldl
      (fun sum number => sum + Float64Ops.pow (number - 5) (Float64Ops.ofInt 2)) 0 = 32 := by
    simp only [List.foldl, h.pow_two]; norm_num
  have hmed : m = 9 / 2 := by
    have e1 := hm ({ (NewStatistics 2 : statistics α) with
      numbers := [2, 4, 4, 4, 5, 5, 7, 9] }) hsort.symm rfl
    have e2 := computeMedian_even ({ (NewStatistics 2 : statistics α) with
      numbers := [2, 4, 4, 4, 5, 5, 7, 9] }) (by simp) (by simp) (by simp) (by simp)
    rw [e1] at e2
    simp only [Option.some.injEq, Prod.mk.injEq, and_true] at e2
    rw [e2, roundToPrecision_eq]
    have g1 : ([2, 4, 4, 4, 5, 5, 7, 9] : List α).get ⟨8 / 2, by simp⟩ = 5 := rfl
    have g2 : ([2, 4, 4, 4, 5, 5, 7, 9] : List α).get ⟨8 / 2 - 1, by simp⟩ = 4 := rfl
    have : (([2, 4, 4, 4, 5, 5, 7, 9] : List α).get ⟨8 / 2, by simp⟩ +
        ([2, 4, 4, 4, 5, 5, 7, 9] : List α).get ⟨8 / 2 - 1, by simp⟩) / Float64Ops.ofInt 2
          = (9 / 2 : α) := by
      rw [g1, g2, h.ofInt_eq]
      norm_num
    exact (congrArg _ this).trans r45
  have hmodes := modesOf_scenario (α := α)
  have e40 : roundAt (2 : Int) (40 : α) = 40 := r40
  have e5 : roundAt (2 : Int) ((40 : α) / Float64Ops.ofInt 8) = 5 := hmean
  have e7 : (32 : α) / Float64Ops.ofInt (8 - 1) = 32 / 7 := by
    rw [h.ofInt_eq]; norm_num
  have esd : roundAt (2 : Int) (Float64Ops.sqrt (32 / 7 : α) : α) = 213 / 100 := rsd
  have hp2 : (NewStatistics 2 : statistics α).precision = 2 := rfl
  rw [hsort] at hC
  simp only [hp2, hsum, hlen] at hC
  rw [e40, e5, hsq, e7, esd, hmodes, hmed] at hC
  exact ⟨_, hC, rfl, rfl, rfl, rfl, rfl, rfl⟩

end Exact

/-! ## Frame of a call, history and order of the input -/

section Frame

variable {α : Type} [Zero α] [Add α] [Sub α] [Mul α] [Div α] [LT α]
  [DecidableRel (fun a b : α => a < b)] [BEq α] [Float64Ops α]

/-- Two calls of `Compute` whose inputs sort to the same slice, on engines of the same
precision, store the same numbers and results; each keeps the error of its engine. -/
theorem Compute_fields_congr (s t : statistics α) (i1 i2 : List α) (h1 : i1 ≠ [])
    (h2 : i2 ≠ []) (hs : Float64s i1 = Float64s i2) (hp : s.precision = t.precision) :
    ∃ s1 t1 : statistics α, Compute s i1 = some s1 ∧ Compute t i2 = some t1 ∧
      s1.numbers = Float64s i1 ∧ s1.numbers = t1.numbers ∧ s1.sum = t1.sum ∧
      s1.mean = t1.mean ∧ s1.median = t1.median ∧
      s1.standardDeviation = t1.standardDeviation ∧ s1.modes = t1.modes ∧
      s1.precision = t1.precision ∧ s1.precision = s.precision ∧
      s1.err = s.err ∧ t1.err = t.err := by
  obtain ⟨m, hm, hC⟩ := Compute_nonempty s i1 h1
  obtain ⟨m2, hm2, hF⟩ := Compute_nonempty t i2 h2
  have e : m2 = m := by
    have a1 := hm ({ s with numbers := Float64s i1 } : statistics α) rfl rfl
    have a2 := hm2 ({ s with numbers := Float64s i1 } : statistics α) hs hp
    rw [a1] at a2
    simpa using a2.symm
  subst e
  rw [← hs, ← hp] at hF
  exact ⟨_, _, hC, hF, rfl, rfl, rfl, rfl, rfl, rfl, rfl, rfl, rfl, rfl, rfl⟩

/-- C17: each of `computeSum`, `computeMean`, `computeMedian`, `computeStandardDeviation` and
`computeModes` returns (without panic) an error exactly when the stored numbers are empty; on
empty numbers all five return the error of the same message with the zero value (`0`, or no
modes), and the two that return the engine return it unchanged. -/
theorem C17_subcomputations (s : statistics α) :
    (s.computeSum.2 ≠ none ↔ s.numbers = []) ∧
    (s.computeMean.2.2 ≠ none ↔ s.numbers = []) ∧
    (∃ r, s.computeMedian = some r ∧ (r.2 ≠ none ↔ s.numbers = [])) ∧
    (s.computeStandardDeviation.2.2 ≠ none ↔ s.numbers = []) ∧
    (s.computeModes.2 ≠ none ↔ s.numbers = []) ∧
    (s.numbers = [] →
      s.computeSum = (0, some emptyInputs) ∧
      s.computeMean = (s, 0, some emptyInputs) ∧
      s.computeMedian = some (0, some emptyInputs) ∧
      s.computeStandardDeviation = (s, 0, some emptyInputs) ∧
      s.computeModes = ([], some emptyInputs)) := by
  by_cases h : s.numbers = []
  · have hv : s.validInputs = false := by simp [validInputs, h]
    have e1 : s.computeSum = (0, some emptyInputs) := by simp [computeSum, hv]
    have e2 : s.computeMean = (s, 0, some emptyInputs) := by simp [computeMean, hv]
    have e3 : s.computeMedian = some (0, some emptyInputs) := by simp [computeMedian, hv]
    have e4 : s.computeStandardDeviation = (s, 0, some emptyInputs) := by
      simp [computeStandardDeviation, hv]
    have e5 : s.computeModes = ([], some emptyInputs) := by simp [computeModes, hv]
    refine ⟨?_, ?_, ⟨_, e3, ?_⟩, ?_, ?_, fun _ => ⟨e1, e2, e3, e4, e5⟩⟩
    · rw [e1]; simp [h]
    · rw [e2]; simp [h]
    · simp [h]
    · rw [e4]; simp [h]
    · rw [e5]; simp [h]
  · obtain ⟨m, hm⟩ := computeMedian_total s h
    refine ⟨?_, ?_, ⟨_, hm, ?_⟩, ?_, ?_, fun h0 => absurd h0 h⟩
    · rw [computeSum_valid s h]; simp [h]
    · rw [computeMean_valid s h]; simp [h]
    · simp [h]
    · rw [computeStandardDeviation_valid s h]; simp [h]
    · rw [computeModes_valid s h]; simp [h]

/-- C20: for every engine state, `Compute` with the empty sequence returns, empties the stored
numbers, sets the error and leaves `sum`, `mean`, `median`, `standardDeviation`, `modes` and
`precision` as they were; and every call of `Compute` that returns leaves `precision` as it
was. -/
theorem C20_failed_call_frame (s : statistics α) :
    (∃ s1 : statistics α, Compute s [] = some s1 ∧ s1.numbers = [] ∧
      s1.err = some emptyInputs ∧ s1.sum = s.sum ∧ s1.mean = s.mean ∧ s1.median = s.median ∧
      s1.standardDeviation = s.standardDeviation ∧ s1.modes = s.modes ∧
      s1.precision = s.precision) ∧
    (∀ (inputs : List α) (s1 : statistics α), Compute s inputs = some s1 →
      s1.precision = s.precision) := by
  refine ⟨⟨_, Compute_nil s, rfl, rfl, rfl, rfl, rfl, rfl, rfl, rfl⟩, fun inputs s1 h => ?_⟩
  by_cases hi : inputs = []
  · subst hi
    rw [Compute_nil] at h
    rw [← Option.some.inj h]
  · obtain ⟨m, -, hC⟩ := Compute_nonempty s inputs hi
    rw [hC] at h
    rw [← Option.some.inj h]

end Frame

section Order

variable {α : Type} [LinearOrderedField α] [Float64Ops α]

theorem Float64s_idem (x : List α) : Float64s (Float64s x) = Float64s x :=
  Float64s_eq_of_sorted_perm (Float64s_sorted x) (List.Perm.refl _)

theorem Float64s_eq_of_perm {x y : List α} (h : x.Perm y) : Float64s x = Float64s y :=
  Float64s_eq_of_sorted_perm (Float64s_sorted y) ((Float64s_perm y).trans h.symm)

theorem Float64s_eq_self_iff (x : List α) :
    Float64s x = x ↔ x.Sorted (fun a b => a ≤ b) :=
  ⟨fun h => h ▸ Float64s_sorted x, fun h => Float64s_eq_of_sorted_perm h (List.Perm.refl _)⟩

theorem callerAfter_eq (s : statistics α) (inputs : List α) :
    callerAfter s inputs = some (Float64s inputs) := by
  unfold callerAfter
  by_cases h : inputs = []
  · subst h
    rw [Compute_nil]
    rfl
  · obtain ⟨m, -, hC⟩ := Compute_nonempty s inputs h
    rw [hC]
    rfl

/-- C11: for every engine and every input, `Compute` returns, a second `Compute` on the
sequence as the first call left it in the caller's array returns, and the error, sum, mean,
median, standard deviation and modes after the second call are those after the first. -/
theorem C11_idempotent (s : statistics α) (inputs : List α) :
    ∃ (s1 s2 : statistics α) (c : List α), Compute s inputs = some s1 ∧
      callerAfter s inputs = some c ∧ Compute s1 c = some s2 ∧
      s2.err = s1.err ∧ s2.sum = s1.sum ∧ s2.mean = s1.mean ∧ s2.median = s1.median ∧
      s2.standardDeviation = s1.standardDeviation ∧ s2.modes = s1.modes := by
  by_cases h : inputs = []
  · subst h
    refine ⟨_, _, [], Compute_nil s, ?_, Compute_nil _, rfl, rfl, rfl, rfl, rfl, rfl⟩
    rw [callerAfter_eq]; rfl
  · have hc : Float64s inputs ≠ [] := Float64s_ne_nil h
    obtain ⟨s1, u1, hC1, -, hn, -, -, -, -, -, -, -, hp, he1, -⟩ :=
      Compute_fields_congr s s inputs inputs h h rfl rfl
    obtain ⟨s2, t1, hC2, hT, -, -, e2, e3, e4, e5, e6, -, -, e7, e8⟩ :=
      Compute_fields_congr s1 s (Float64s inputs) inputs hc h (Float64s_idem inputs) hp
    rw [hC1] at hT
    have ht : t1 = s1 := (Option.some.inj hT).symm
    subst ht
    exact ⟨t1, s2, Float64s inputs, hC1, callerAfter_eq s inputs, hC2, by rw [e7],
      e2, e3, e4, e5, e6⟩

/-- C12 (amended): `Compute` does not copy the input.  For every engine and every input it
returns; the caller's sequence then holds the elements of the input in ascending order, and it
is the sequence of before the call exactly when that one was already in ascending order.  An
assignment to an element of the caller's sequence after the call changes that element of the
stored numbers and no other field. -/
theorem C12_shares_callers_array (s : statistics α) (inputs : List α) :
    (∃ (s1 : statistics α) (c : List α), Compute s inputs = some s1 ∧
      callerAfter s inputs = some c ∧ c = s1.numbers ∧ c.Perm inputs ∧
      c.Sorted (fun a b => a ≤ b) ∧ (c = inputs ↔ inputs.Sorted (fun a b => a ≤ b))) ∧
    (∀ (s1 : statistics α) (i : Nat) (v : α),
      (callerAssign s1 i v).numbers = s1.numbers.set i v ∧
      (callerAssign s1 i v).sum = s1.sum ∧ (callerAssign s1 i v).mean = s1.mean ∧
      (callerAssign s1 i v).median = s1.median ∧
      (callerAssign s1 i v).standardDeviation = s1.standardDeviation ∧
      (callerAssign s1 i v).modes = s1.modes ∧
      (callerAssign s1 i v).precision = s1.precision ∧
      (callerAssign s1 i v).err = s1.err) := by
  refine ⟨?_, fun s1 i v => ⟨rfl, rfl, rfl, rfl, rfl, rfl, rfl, rfl⟩⟩
  have hca := callerAfter_eq s inputs
  have hnum : ∃ s1 : statistics α, Compute s inputs = some s1 ∧ s1.numbers = Float64s inputs := by
    by_cases h : inputs = []
    · subst h
      exact ⟨_, Compute_nil s, rfl⟩
    · obtain ⟨m, -, hC⟩ := Compute_nonempty s inputs h
      exact ⟨_, hC, rfl⟩
  obtain ⟨s1, hC, hn⟩ := hnum
  exact ⟨s1, Float64s inputs, hC, hca, hn.symm, Float64s_perm inputs, Float64s_sorted inputs,
    Float64s_eq_self_iff inputs⟩

/-- C15: for every non-empty input whose elements are pairwise distinct, `Compute` returns and
every input value is a mode: the stored modes have as many entries as the input and hold
exactly the input values. -/
theorem C15_distinct_all_modes (s : statistics α) (inputs : List α) (hne : inputs ≠ [])
    (hd : inputs.Nodup) :
    ∃ s1 : statistics α, Compute s inputs = some s1 ∧
      s1.modes.length = inputs.length ∧ (∀ v, v ∈ s1.modes ↔ v ∈ inputs) ∧
      s1.modes.Perm inputs := by
  obtain ⟨s1, hC, hnd, hmem, -⟩ := modes_of_Compute s inputs hne
  have hiff : ∀ v, v ∈ s1.modes ↔ v ∈ inputs := by
    intro v
    rw [hmem v]
    constructor
    · exact fun h => h.1
    · intro hv
      refine ⟨hv, fun w => ?_⟩
      rw [List.count_eq_one_of_mem hd hv]
      exact List.nodup_iff_count_le_one.1 hd w
  have hperm : s1.modes.Perm inputs := (List.perm_ext_iff_of_nodup hnd hd).2 hiff
  exact ⟨s1, hC, hperm.length_eq, hiff, hperm⟩

/-- C16: for every non-empty input, `Compute` returns and the stored numbers are in ascending
order and are a permutation of the input. -/
theorem C16_sorted_permutation (s : statistics α) (inputs : List α) (hne : inputs ≠ []) :
    ∃ s1 : statistics α, Compute s inputs = some s1 ∧
      s1.numbers.Sorted (fun a b => a ≤ b) ∧ s1.numbers.Perm inputs := by
  obtain ⟨m, -, hC⟩ := Compute_nonempty s inputs hne
  exact ⟨_, hC, Float64s_sorted inputs, Float64s_perm inputs⟩

/-- C19: for every precision and any two non-empty inputs that are permutations of each other,
`Compute` on fresh engines returns and stores the same sum, mean, median, standard deviation
and modes. -/
theorem C19_order_independent (precision : Int) (i1 i2 : List α) (h1 : i1 ≠ [])
    (h2 : i2 ≠ []) (hperm : i1.Perm i2) :
    ∃ s1 s2 : statistics α, Compute (NewStatistics precision) i1 = some s1 ∧
      Compute (NewStatistics precision) i2 = some s2 ∧
      s1.sum = s2.sum ∧ s1.mean = s2.mean ∧ s1.median = s2.median ∧
      s1.standardDeviation = s2.standardDeviation ∧ s1.modes = s2.modes ∧
      (∀ v, v ∈ s1.modes ↔ v ∈ s2.modes) := by
  obtain ⟨s1, s2, hC1, hC2, -, -, e1, e2, e3, e4, e5, -, -, -, -⟩ :=
    Compute_fields_congr (NewStatistics precision : statistics α) (NewStatistics precision)
      i1 i2 h1 h2 (Float64s_eq_of_perm hperm) rfl
  exact ⟨s1, s2, hC1, hC2, e1, e2, e3, e4, e5, fun v => by rw [e5]⟩

end Order

section NegativePrecision

variable {α : Type} [LinearOrderedField α] [Float64Ops α]

theorem roundAt_neg_exact (h : ExactArith α) (k : Nat) (x : α) :
    roundAt (-(k : Int)) x =
      ((Float64Ops.toInt (x / (10 : α) ^ k) : Int) : α) * (10 : α) ^ k := by
  have hT : (10 : α) ^ k ≠ 0 := pow_ne_zero _ (by norm_num)
  rw [roundAt_exact h, zpow_neg, zpow_natCast, ← div_eq_mul_inv, div_eq_mul_inv _ ((10 : α) ^ k)⁻¹,
    inv_inv]

end NegativePrecision

/-! ## Exactness of the steps of `roundToPrecision` -/

section ExactSteps

variable {α : Type} [Mul α] [Div α] [Float64Ops α] {K : Type} [LinearOrderedField K]

theorem roundAt_eq_scaled (p : Int) (x : α) :
    roundAt p x = Float64Ops.ofInt (scaledInt p x) / multiplierAt α p := rfl

theorem trunc_bounds {T y : K} {k : Int} (hT : 0 < T) (ht : IsTrunc k (y * T)) :
    |(k : K) / T| ≤ |y| ∧ (0 ≤ y → 0 ≤ (k : K) / T) ∧ (y ≤ 0 → (k : K) / T ≤ 0) ∧
      |y - (k : K) / T| < 1 / T := by
  rcases le_total 0 y with h0 | h0
  · have hy : 0 ≤ y * T := mul_nonneg h0 hT.le
    obtain ⟨hk1, hk2⟩ := ht.1 hy
    have hk0 : (0 : K) ≤ (k : K) := by
      have : (-1 : Int) < k := by
        have : ((-1 : Int) : K) < (k : K) := by push_cast; linarith
        exact_mod_cast this
      have : (0 : Int) ≤ k := by omega
      exact_mod_cast this
    have hr0 : 0 ≤ (k : K) / T := div_nonneg hk0 hT.le
    have hrx : (k : K) / T ≤ y := by
      rw [div_le_iff₀ hT]; exact hk1
    refine ⟨?_, fun _ => hr0, fun hx0 => ?_, ?_⟩
    · rw [abs_of_nonneg hr0, abs_of_nonneg h0]; exact hrx
    · have : y = 0 := le_antisymm hx0 h0
      linarith
    · rw [abs_of_nonneg (by linarith), sub_lt_iff_lt_add, ← add_div, lt_div_iff₀ hT]
      linarith
  · have hy : y * T ≤ 0 := mul_nonpos_of_nonpos_of_nonneg h0 hT.le
    obtain ⟨hk1, hk2⟩ := ht.2 hy
    have hk0 : (k : K) ≤ 0 := by
      have : k < 1 := by
        have : (k : K) < ((1 : Int) : K) := by push_cast; linarith
        exact_mod_cast this
      have : k ≤ 0 := by omega
      exact_mod_cast this
    have hr0 : (k : K) / T ≤ 0 := div_nonpos_of_nonpos_of_nonneg hk0 hT.le
    have hrx : y ≤ (k : K) / T := by
      rw [le_div_iff₀ hT]; exact hk1
    refine ⟨?_, fun hx0 => ?_, fun _ => hr0, ?_⟩
    · rw [abs_of_nonpos hr0, abs_of_nonpos h0]; linarith
    · have : y = 0 := le_antisymm h0 hx0
      linarith
    · rw [abs_of_nonpos (by linarith), neg_sub, sub_lt_iff_lt_add, ← sub_lt_iff_lt_add',
        div_sub_div_same, div_lt_iff₀ hT]
      linarith

/-- Where the steps are exact, `roundToPrecision` is the truncation of the scaled value,
scaled back, with its bounds. -/
theorem roundAt_of_exactAt (val : α → K) (p : Int) (x : α) (h : ExactAt val p x) :
    val (roundAt p x) = ((scaledInt p x : Int) : K) / (10 : K) ^ p ∧
      IsTrunc (scaledInt p x) (val x * (10 : K) ^ p) ∧
      |val (roundAt p x)| ≤ |val x| ∧ (0 ≤ val x → 0 ≤ val (roundAt p x)) ∧
      (val x ≤ 0 → val (roundAt p x) ≤ 0) ∧ |val x - val (roundAt p x)| < 1 / (10 : K) ^ p := by
  obtain ⟨h1, h2, h3, h4⟩ := h
  have hT : (0 : K) < (10 : K) ^ p := zpow_pos (by norm_num) p
  have e : val (roundAt p x) = ((scaledInt p x : Int) : K) / (10 : K) ^ p := by
    rw [roundAt_eq_scaled, h4, h1]
  have ht : IsTrunc (scaledInt p x) (val x * (10 : K) ^ p) := by
    rw [h2, h1] at h3; exact h3
  rw [e]
  exact ⟨rfl, ht, trunc_bounds hT ht⟩

end ExactSteps

section ExactSteps2

variable {α : Type} [LinearOrderedField α] [Float64Ops α]

/-- In exact arithmetic the steps are exact whenever the scaled value fits 64 bits. -/
theorem exactAt_of_exactArith (h : ExactArith α) (p : Int) (x : α)
    (hx : |x * (10 : α) ^ p| < 2 ^ 63) : ExactAt (fun y : α => y) p x := by
  have hm : multiplierAt α p = (10 : α) ^ p := h.pow_ten p
  unfold ExactAt scaledInt
  rw [hm]
  exact ⟨rfl, rfl, toInt_isTrunc h _ hx, by rw [h.ofInt_eq]⟩

end ExactSteps2

/-- C9 (amended): for every non-negative precision `p` and every `x`, `roundToPrecision(x)` is
`float64(int(x * m)) / m` with `m = math.Pow(10, p)`: multiply, convert to `int`, divide back.
Where these steps are exact (`ExactAt`: `m` is `10^p`, the product and the quotient are exact
and `int` drops the fraction of the product toward zero), the result is
`trunc(x * 10^p) / 10^p`, has absolute value at most `|x|`, never the opposite sign of `x`, and
differs from `x` by less than `10^(-p)`.  In exact arithmetic the steps are exact whenever
`x * 10^p` fits 64 bits, and at precision 2 `1.239` gives `1.23` and `-1.239` gives `-1.23`. -/
theorem C9_roundToPrecision :
    (∀ (α : Type) [Mul α] [Div α] [Float64Ops α] (K : Type) [LinearOrderedField K]
        (val : α → K) (p : Nat) (s : statistics α), s.precision = (p : Int) → ∀ x : α,
      s.roundToPrecision x =
        Float64Ops.ofInt (scaledInt (p : Int) x) / multiplierAt α (p : Int) ∧
      (ExactAt val (p : Int) x →
        val (s.roundToPrecision x) = ((scaledInt (p : Int) x : Int) : K) / (10 : K) ^ p ∧
        IsTrunc (scaledInt (p : Int) x) (val x * (10 : K) ^ p) ∧
        |val (s.roundToPrecision x)| ≤ |val x| ∧
        (0 ≤ val x → 0 ≤ val (s.roundToPrecision x)) ∧
        (val x ≤ 0 → val (s.roundToPrecision x) ≤ 0) ∧
        |val x - val (s.roundToPrecision x)| < 1 / (10 : K) ^ p)) ∧
    (∀ (β : Type) [LinearOrderedField β] [Float64Ops β], ExactArith β →
      ∀ (p : Nat) (t : statistics β), t.precision = (p : Int) →
        (∀ x : β, |x * (10 : β) ^ p| < 2 ^ 63 → ExactAt (fun y : β => y) (p : Int) x) ∧
        (p = 2 → t.roundToPrecision (1239 / 1000) = 123 / 100 ∧
          t.roundToPrecision (-1239 / 1000) = -123 / 100)) := by
  constructor
  · intro α _ _ _ K _ val p s hp x
    have e : s.roundToPrecision x = roundAt (p : Int) x := by rw [← hp]; rfl
    rw [e]
    refine ⟨roundAt_eq_scaled _ x, fun hex => ?_⟩
    have := roundAt_of_exactAt val (p : Int) x hex
    rw [zpow_natCast] at this
    exact this
  · intro β _ _ h p t hp
    constructor
    · intro x hx
      exact exactAt_of_exactArith h (p : Int) x (by rw [zpow_natCast]; exact hx)
    · intro h2
      subst h2
      rw [roundToPrecision_eq, roundToPrecision_eq, hp, roundAt_exact h, roundAt_exact h]
      have e1 : Float64Ops.toInt ((1239 / 1000 : β) * (10 : β) ^ ((2 : Nat) : Int)) = 123 := by
        apply toInt_eq_of_bounds h
        · rw [abs_lt]; constructor <;> norm_num
        · exact ⟨fun _ => ⟨by norm_num, by norm_num⟩, fun hh => absurd hh (by norm_num)⟩
      have e2 : Float64Ops.toInt ((-1239 / 1000 : β) * (10 : β) ^ ((2 : Nat) : Int)) = -123 := by
        apply toInt_eq_of_bounds h
        · rw [abs_lt]; constructor <;> norm_num
        · exact ⟨fun hh => absurd hh (by norm_num), fun _ => ⟨by norm_num, by norm_num⟩⟩
      rw [e1, e2]
      constructor <;> norm_num

/-- C4 (amended): for every non-empty input and every non-negative precision `p`, `Compute`
returns and the stored sum is `roundToPrecision` of the sum `S` of the input elements, taken
in ascending order (in any order where addition is exact), i.e. `float64(int(S * m)) / m` with
`m = math.Pow(10, p)`.  Where these steps are exact (`ExactAt`), the stored sum is
`trunc(S * 10^p) / 10^p`; in exact arithmetic they are exact whenever `S * 10^p` fits 64
bits. -/
theorem C4_sum :
    (∀ (α : Type) [Zero α] [Add α] [Sub α] [Mul α] [Div α] [LT α]
        [DecidableRel (fun a b : α => a < b)] [BEq α] [Float64Ops α]
        (K : Type) [LinearOrderedField K] (val : α → K) (p : Nat) (s : statistics α)
        (inputs : List α), s.precision = (p : Int) → inputs ≠ [] →
      ∃ s1 : statistics α, Compute s inputs = some s1 ∧
        s1.sum = s1.roundToPrecision ((Float64s inputs).foldl (fun sum x => sum + x) (0 : α)) ∧
        s1.sum =
          Float64Ops.ofInt
              (scaledInt (p : Int) ((Float64s inputs).foldl (fun sum x => sum + x) (0 : α))) /
            multiplierAt α (p : Int) ∧
        (ExactAt val (p : Int) ((Float64s inputs).foldl (fun sum x => sum + x) (0 : α)) →
          val s1.sum =
            ((scaledInt (p : Int) ((Float64s inputs).foldl (fun sum x => sum + x) (0 : α)) : Int) : K)
              / (10 : K) ^ p ∧
          IsTrunc (scaledInt (p : Int) ((Float64s inputs).foldl (fun sum x => sum + x) (0 : α)))
            (val ((Float64s inputs).foldl (fun sum x => sum + x) (0 : α)) * (10 : K) ^ p))) ∧
    (∀ (β : Type) [LinearOrderedField β] [Float64Ops β] (p : Nat) (t : statistics β)
        (inputs : List β), t.precision = (p : Int) → inputs ≠ [] →
      (Float64s inputs).foldl (fun sum x => sum + x) (0 : β) = inputs.sum ∧
      ∃ t1 : statistics β, Compute t inputs = some t1 ∧
        t1.sum = t1.roundToPrecision inputs.sum ∧
        (ExactArith β → |inputs.sum * (10 : β) ^ p| < 2 ^ 63 →
          ExactAt (fun y : β => y) (p : Int) inputs.sum ∧
          t1.sum = ((scaledInt (p : Int) inputs.sum : Int) : β) / (10 : β) ^ p ∧
          IsTrunc (scaledInt (p : Int) inputs.sum) (inputs.sum * (10 : β) ^ p))) := by
  constructor
  · intro α _ _ _ _ _ _ _ _ _ K _ val p s inputs hp hne
    obtain ⟨m, -, hC⟩ := Compute_nonempty s inputs hne
    refine ⟨_, hC, ?_, ?_, fun hex => ?_⟩
    · rfl
    · show roundAt s.precision _ = _
      rw [hp]; rfl
    · show val (roundAt s.precision _) = _ ∧ _
      rw [hp]
      have := roundAt_of_exactAt val (p : Int) _ hex
      rw [zpow_natCast] at this
      exact ⟨this.1, this.2.1⟩
  · intro β _ _ p t inputs hp hne
    obtain ⟨m, -, hC⟩ := Compute_nonempty t inputs hne
    refine ⟨foldl_Float64s_sum inputs, _, hC, ?_, fun h hx => ?_⟩
    · simp only [roundToPrecision_eq, foldl_Float64s_sum]
    · have hex := exactAt_of_exactArith h (p : Int) inputs.sum (by rw [zpow_natCast]; exact hx)
      have := roundAt_of_exactAt (fun y : β => y) (p : Int) inputs.sum hex
      rw [zpow_natCast] at this
      refine ⟨hex, ?_, this.2.1⟩
      show roundAt t.precision _ = _
      rw [hp, foldl_Float64s_sum]
      exact this.1

/-- C18 (amended): `NewStatistics` stores a negative precision as it is, and for every `k > 0`
and every `x` an engine of precision `-k` has `roundToPrecision(x) = float64(int(x * m)) / m`
with `m = math.Pow(10, -k)`.  Where these steps are exact (`ExactAt`), that is
`trunc(x / 10^k) * 10^k`; in exact arithmetic they are exact whenever `x / 10^k` fits 64 bits,
and precision `-1` maps `129` to `120`. -/
theorem C18_negative_precision :
    (∀ (α : Type) [Zero α] (k : Nat),
      (NewStatistics (-(k : Int)) : statistics α).precision = -(k : Int)) ∧
    (∀ (α : Type) [Mul α] [Div α] [Float64Ops α] (K : Type) [LinearOrderedField K]
        (val : α → K) (k : Nat) (s : statistics α), 0 < k → s.precision = -(k : Int) →
      ∀ x : α,
        s.roundToPrecision x =
          Float64Ops.ofInt (scaledInt (-(k : Int)) x) / multiplierAt α (-(k : Int)) ∧
        (ExactAt val (-(k : Int)) x →
          val (s.roundToPrecision x) = ((scaledInt (-(k : Int)) x : Int) : K) * (10 : K) ^ k ∧
          IsTrunc (scaledInt (-(k : Int)) x) (val x / (10 : K) ^ k))) ∧
    (∀ (β : Type) [LinearOrderedField β] [Float64Ops β], ExactArith β →
      ∀ (k : Nat) (t : statistics β), 0 < k → t.precision = -(k : Int) →
        (∀ x : β, |x / (10 : β) ^ k| < 2 ^ 63 → ExactAt (fun y : β => y) (-(k : Int)) x) ∧
        (k = 1 → t.roundToPrecision 129 = 120)) := by
  refine ⟨fun α _ k => rfl, ?_, ?_⟩
  · intro α _ _ _ K _ val k s hk hp x
    have e : s.roundToPrecision x = roundAt (-(k : Int)) x := by rw [← hp]; rfl
    rw [e]
    refine ⟨roundAt_eq_scaled _ x, fun hex => ?_⟩
    have := roundAt_of_exactAt val (-(k : Int)) x hex
    rw [zpow_neg, zpow_natCast] at this
    refine ⟨?_, ?_⟩
    · rw [this.1, div_eq_mul_inv, inv_inv]
    · rw [div_eq_mul_inv]; exact this.2.1
  · intro β _ _ h k t hk hp
    constructor
    · intro x hx
      apply exactAt_of_exactArith h
      rw [zpow_neg, zpow_natCast, ← div_eq_mul_inv]
      exact hx
    · intro h1
      subst h1
      rw [roundToPrecision_eq, hp, roundAt_neg_exact h]
      have e : Float64Ops.toInt ((129 : β) / (10 : β) ^ 1) = 12 := by
        apply toInt_eq_of_bounds h
        · rw [abs_lt]; constructor <;> norm_num
        · exact ⟨fun _ => ⟨by norm_num, by norm_num⟩, fun hh => absurd hh (by norm_num)⟩
      rw [e]
      norm_num

section ModesUnrounded

variable {α : Type} [LinearOrderedField α] [Float64Ops α]

/-- C14 (amended): for every non-empty input, `Compute` returns and every stored mode is one of
the input values as it was given: `computeModes` applies no rounding, so the stored modes are
fixed by `roundToPrecision` exactly when the most frequent input values are. -/
theorem C14_modes_are_inputs (s : statistics α) (inputs : List α) (hne : inputs ≠ []) :
    ∃ s1 : statistics α, Compute s inputs = some s1 ∧
      (∀ m, m ∈ s1.modes → m ∈ inputs) ∧
      ((∀ m, m ∈ s1.modes → m = s1.roundToPrecision m) ↔
        ∀ v, v ∈ inputs → (∀ w, inputs.count w ≤ inputs.count v) →
          v = s1.roundToPrecision v) := by
  obtain ⟨s1, hC, -, hmem, -⟩ := modes_of_Compute s inputs hne
  refine ⟨s1, hC, fun m hm => ((hmem m).1 hm).1, ?_, ?_⟩
  · intro h v hv hmax
    exact h v ((hmem v).2 ⟨hv, hmax⟩)
  · intro h m hm
    exact h m ((hmem m).1 hm).1 ((hmem m).1 hm).2

end ModesUnrounded

/-! ## Evaluations on exact rational numbers -/

theorem ratExactArith : ExactArith ℚ where
  ofInt_eq := fun k => rfl
  toInt_nonneg := by
    intro x h0 h1
    have hr : -(2 ^ 63) - 1 < x ∧ x < 2 ^ 63 := ⟨by linarith, h1⟩
    show ((ratToInt x : Int) : ℚ) ≤ x ∧ x < ((ratToInt x : Int) : ℚ) + 1
    simp only [ratToInt, hr, h0, and_self, if_true]
    exact ⟨Int.floor_le x, Int.lt_floor_add_one x⟩
  toInt_nonpos := by
    intro x h0 h1
    have hr : -(2 ^ 63) - 1 < x ∧ x < 2 ^ 63 := ⟨h1, by linarith [show (0:ℚ) < 2 ^ 63 by norm_num]⟩
    show x ≤ ((ratToInt x : Int) : ℚ) ∧ ((ratToInt x : Int) : ℚ) - 1 < x
    simp only [ratToInt, hr, and_self, if_true]
    split_ifs with hx
    · have : x = 0 := le_antisymm h0 hx
      subst this
      simp
    · exact ⟨Int.le_ceil x, by linarith [Int.ceil_lt_add_one x]⟩
  pow_ten := by
    intro n
    show ((10 : Int) : ℚ) ^ ⌊((n : Int) : ℚ)⌋ = (10 : ℚ) ^ n
    simp
  pow_two := by
    intro x
    show x ^ ⌊(((2 : Int) : ℚ))⌋ = x ^ 2
    have : ⌊(((2 : Int) : ℚ))⌋ = 2 := by simp
    rw [this]
    exact zpow_ofNat x 2

/-- C8: for every non-empty input, `Compute` returns, the stored modes hold no value twice, a
value is among them exactly when it occurs in the input as often as the most frequent value,
and there is at least one mode; as sets the modes of `[1,1,2,2,3]`, `[1,2,3]` and `[5,5,5]`
are `{1,2}`, `{1,2,3}` and `{5}`. -/
theorem C8_modes :
    (∀ (α : Type) [LinearOrderedField α] [Float64Ops α] (s : statistics α) (inputs : List α),
      inputs ≠ [] →
      ∃ s1 : statistics α, Compute s inputs = some s1 ∧ s1.modes.Nodup ∧
        (∀ v, v ∈ s1.modes ↔ v ∈ inputs ∧ ∀ w, inputs.count w ≤ inputs.count v) ∧
        s1.modes ≠ []) ∧
    (∀ p : Int, ∃ s1 : statistics ℚ, Compute (NewStatistics p) [1, 1, 2, 2, 3] = some s1 ∧
      ∀ v, v ∈ s1.modes ↔ v = 1 ∨ v = 2) ∧
    (∀ p : Int, ∃ s1 : statistics ℚ, Compute (NewStatistics p) [1, 2, 3] = some s1 ∧
      ∀ v, v ∈ s1.modes ↔ v = 1 ∨ v = 2 ∨ v = 3) ∧
    (∀ p : Int, ∃ s1 : statistics ℚ, Compute (NewStatistics p) [5, 5, 5] = some s1 ∧
      ∀ v, v ∈ s1.modes ↔ v = 5) := by
  refine ⟨fun α _ _ s inputs hne => modes_of_Compute s inputs hne, fun p => ?_, fun p => ?_,
    fun p => ?_⟩
  · obtain ⟨m, -, hC⟩ := Compute_nonempty (NewStatistics p : statistics ℚ) [1, 1, 2, 2, 3]
      (by decide)
    refine ⟨_, hC, fun v => ?_⟩
    have e : modesOf (Float64s ([1, 1, 2, 2, 3] : List ℚ)) = [1, 2] := by decide!
    show v ∈ modesOf (Float64s ([1, 1, 2, 2, 3] : List ℚ)) ↔ _
    rw [e]; simp
  · obtain ⟨m, -, hC⟩ := Compute_nonempty (NewStatistics p : statistics ℚ) [1, 2, 3]
      (by decide)
    refine ⟨_, hC, fun v => ?_⟩
    have e : modesOf (Float64s ([1, 2, 3] : List ℚ)) = [1, 2, 3] := by decide!
    show v ∈ modesOf (Float64s ([1, 2, 3] : List ℚ)) ↔ _
    rw [e]; simp
  · obtain ⟨m, -, hC⟩ := Compute_nonempty (NewStatistics p : statistics ℚ) [5, 5, 5]
      (by decide)
    refine ⟨_, hC, fun v => ?_⟩
    have e : modesOf (Float64s ([5, 5, 5] : List ℚ)) = [5] := by decide!
    show v ∈ modesOf (Float64s ([5, 5, 5] : List ℚ)) ↔ _
    rw [e]; simp

/-- C2 (as stated) fails: after a failed call on the empty sequence, a call on `[1, 2]` leaves
the error set, while a fresh engine of the same precision has no error on `[1, 2]`. -/
theorem C2_counterexample :
    ((Compute (NewStatistics 2 : statistics ℚ) []).bind fun s0 => Compute s0 [1, 2]).map
        (fun s => s.err) = some (some emptyInputs) ∧
      (Compute (NewStatistics 2 : statistics ℚ) [1, 2]).map (fun s => s.err) = some none := by
  decide!

/-- C3 (as stated) fails: after a successful call on `[1, 2]`, a call on the empty sequence
leaves the sum `3`, the mean `1.5`, the median `1.5` and the modes `1, 2` in the engine. -/
theorem C3_counterexample :
    ((Compute (NewStatistics 2 : statistics ℚ) [1, 2]).bind fun s0 => Compute s0 []).map
        (fun s => (s.err, s.sum, s.mean, s.median, s.modes)) =
      some (some emptyInputs, 3, 3 / 2, 3 / 2, [1, 2]) := by
  decide!

theorem C2_independent_of_history_witness :
    ([3, 1] : List ℚ) ≠ [] ∧
      ∃ s1 f : statistics ℚ,
        Compute ({ (NewStatistics 2 : statistics ℚ) with err := some emptyInputs }) [3, 1] = some s1 ∧
        Compute (NewStatistics
          ({ (NewStatistics 2 : statistics ℚ) with err := some emptyInputs }).precision) [3, 1] = some f ∧
        s1.numbers = f.numbers ∧ s1.sum = f.sum ∧ s1.mean = f.mean ∧ s1.median = f.median ∧
        s1.standardDeviation = f.standardDeviation ∧ s1.modes = f.modes ∧
        s1.precision = f.precision ∧ f.err = none ∧
        s1.err = ({ (NewStatistics 2 : statistics ℚ) with err := some emptyInputs }).err :=
  ⟨by decide, C2_independent_of_history _ [3, 1] (by decide)⟩

theorem C5_mean_witness :
    ([1, 2, 2] : List ℚ) ≠ [] ∧
      ∃ s1 : statistics ℚ, Compute (NewStatistics 1) [1, 2, 2] = some s1 ∧
        s1.sum = s1.roundToPrecision ([1, 2, 2] : List ℚ).sum ∧
        s1.mean = s1.roundToPrecision
          (s1.sum / Float64Ops.ofInt (([1, 2, 2] : List ℚ).length : Int)) ∧
        s1.mean = s1.roundToPrecision
          (s1.roundToPrecision ([1, 2, 2] : List ℚ).sum /
            Float64Ops.ofInt (([1, 2, 2] : List ℚ).length : Int)) :=
  ⟨by decide, C5_mean (NewStatistics 1) [1, 2, 2] (by decide)⟩

theorem C6_median_witness :
    ([3, 1, 2, 5] : List ℚ) ≠ [] ∧ ([1, 2, 3, 5] : List ℚ).Sorted (fun u v => u ≤ v) ∧
      ([1, 2, 3, 5] : List ℚ).Perm [3, 1, 2, 5] ∧
      ∃ s1 : statistics ℚ, Compute (NewStatistics 2) [3, 1, 2, 5] = some s1 ∧
        ∃ hmid : ([3, 1, 2, 5] : List ℚ).length / 2 < ([1, 2, 3, 5] : List ℚ).length,
          (([3, 1, 2, 5] : List ℚ).length % 2 = 1 →
            s1.median = s1.roundToPrecision
              (([1, 2, 3, 5] : List ℚ).get ⟨([3, 1, 2, 5] : List ℚ).length / 2, hmid⟩)) ∧
          (([3, 1, 2, 5] : List ℚ).length % 2 = 0 →
            1 ≤ ([3, 1, 2, 5] : List ℚ).length / 2 ∧
            ∃ hbefore : ([3, 1, 2, 5] : List ℚ).length / 2 - 1 < ([1, 2, 3, 5] : List ℚ).length,
              s1.median = s1.roundToPrecision
                ((([1, 2, 3, 5] : List ℚ).get ⟨([3, 1, 2, 5] : List ℚ).length / 2, hmid⟩ +
                    ([1, 2, 3, 5] : List ℚ).get ⟨([3, 1, 2, 5] : List ℚ).length / 2 - 1, hbefore⟩)
                  / Float64Ops.ofInt 2)) :=
  ⟨by decide, by decide!, by decide!,
    C6_median (NewStatistics 2) [3, 1, 2, 5] [1, 2, 3, 5] (by decide) (by decide!) (by decide!)⟩

theorem C7_standardDeviation_witness :
    ExactArith ℚ ∧ 2 ≤ ([2, 4, 4, 4, 5, 5, 7, 9] : List ℚ).length ∧
      ∃ s1 : statistics ℚ, Compute (NewStatistics 2) [2, 4, 4, 4, 5, 5, 7, 9] = some s1 ∧
        s1.mean = s1.roundToPrecision
          (s1.roundToPrecision ([2, 4, 4, 4, 5, 5, 7, 9] : List ℚ).sum /
            Float64Ops.ofInt (([2, 4, 4, 4, 5, 5, 7, 9] : List ℚ).length : Int)) ∧
        s1.standardDeviation = s1.roundToPrecision (Float64Ops.sqrt
          ((([2, 4, 4, 4, 5, 5, 7, 9] : List ℚ).map fun x => (x - s1.mean) ^ 2).sum /
            ((([2, 4, 4, 4, 5, 5, 7, 9] : List ℚ).length : ℚ) - 1))) :=
  ⟨ratExactArith, by decide,
    C7_standardDeviation ratExactArith (NewStatistics 2) [2, 4, 4, 4, 5, 5, 7, 9] (by decide)⟩

/-- C9 (as stated) fails: at precision 19 the scaled value of `1` is `10^19`, which does not fit
the 64-bit `int`; `roundToPrecision(1)` is then negative and further than `10^(-19)` from `1`. -/
theorem C9_counterexample :
    (NewStatistics 19 : statistics ℚ).roundToPrecision 1 < 0 ∧
      ¬ (|(1 : ℚ) - (NewStatistics 19 : statistics ℚ).roundToPrecision 1| < 1 / (10 : ℚ) ^ 19) := by
  decide!

theorem C8_modes_witness :
    ([3, 1, 3, 2] : List ℚ) ≠ [] ∧
      ∃ s1 : statistics ℚ, Compute (NewStatistics 2) [3, 1, 3, 2] = some s1 ∧ s1.modes.Nodup ∧
        (∀ v, v ∈ s1.modes ↔
          v ∈ ([3, 1, 3, 2] : List ℚ) ∧
            ∀ w, ([3, 1, 3, 2] : List ℚ).count w ≤ ([3, 1, 3, 2] : List ℚ).count v) ∧
        s1.modes ≠ [] :=
  ⟨by decide, C8_modes.1 ℚ (NewStatistics 2) [3, 1, 3, 2] (by decide)⟩

theorem C10_scenario_witness :
    ExactArith ℚ ∧
      (0 ≤ (Float64Ops.sqrt (32 / 7 : ℚ) : ℚ) ∧
        |(Float64Ops.sqrt (32 / 7 : ℚ) : ℚ) ^ 2 - 32 / 7| ≤ 1 / 1000) ∧
      ∃ s1 : statistics ℚ, Compute (NewStatistics 2) [2, 4, 4, 4, 5, 5, 7, 9] = some s1 ∧
        s1.err = none ∧ s1.sum = 40 ∧ s1.mean = 5 ∧ s1.median = 9 / 2 ∧ s1.modes = [4] ∧
        s1.standardDeviation = 213 / 100 :=
  ⟨ratExactArith, by decide!, C10_scenario ratExactArith (by decide!)⟩

/-- C18 (as stated) fails: at precision `-1` the scaled value of `10^20` is `10^19`, which does
not fit the 64-bit `int`; `roundToPrecision(10^20)` is then negative, not `10^20`. -/
theorem C18_counterexample :
    (NewStatistics (-1) : statistics ℚ).roundToPrecision ((10 : ℚ) ^ 20) < 0 ∧
      (NewStatistics (-1) : statistics ℚ).roundToPrecision ((10 : ℚ) ^ 20) ≠ (10 : ℚ) ^ 20 := by
  decide!

/-- C12 (as stated) fails: after `Compute` on `[3, 1, 2]` the caller's sequence holds
`[1, 2, 3]`, and a later assignment of `9` to its first element changes the stored numbers to
`[9, 2, 3]`. -/
theorem C12_counterexample :
    callerAfter (NewStatistics 2 : statistics ℚ) [3, 1, 2] = some [1, 2, 3] ∧
      ([1, 2, 3] : List ℚ) ≠ [3, 1, 2] ∧
      (Compute (NewStatistics 2 : statistics ℚ) [3, 1, 2]).map
          (fun s1 => ((callerAssign s1 0 9).numbers, s1.numbers)) =
        some ([9, 2, 3], [1, 2, 3]) := by
  decide!

theorem C15_distinct_all_modes_witness :
    ([3, 1, 2] : List ℚ) ≠ [] ∧ ([3, 1, 2] : List ℚ).Nodup ∧
      ∃ s1 : statistics ℚ, Compute (NewStatistics 2) [3, 1, 2] = some s1 ∧
        s1.modes.length = ([3, 1, 2] : List ℚ).length ∧
        (∀ v, v ∈ s1.modes ↔ v ∈ ([3, 1, 2] : List ℚ)) ∧ s1.modes.Perm [3, 1, 2] :=
  ⟨by decide, by decide!, C15_distinct_all_modes (NewStatistics 2) [3, 1, 2] (by decide) (by decide!)⟩

theorem C16_sorted_permutation_witness :
    ([3, 1, 2] : List ℚ) ≠ [] ∧
      ∃ s1 : statistics ℚ, Compute (NewStatistics 2) [3, 1, 2] = some s1 ∧
        s1.numbers.Sorted (fun a b => a ≤ b) ∧ s1.numbers.Perm [3, 1, 2] :=
  ⟨by decide, C16_sorted_permutation (NewStatistics 2) [3, 1, 2] (by decide)⟩

theorem C19_order_independent_witness :
    ([3, 1, 2] : List ℚ) ≠ [] ∧ ([2, 3, 1] : List ℚ) ≠ [] ∧
      ([3, 1, 2] : List ℚ).Perm [2, 3, 1] ∧
      ∃ s1 s2 : statistics ℚ, Compute (NewStatistics 2) [3, 1, 2] = some s1 ∧
        Compute (NewStatistics 2) [2, 3, 1] = some s2 ∧
        s1.sum = s2.sum ∧ s1.mean = s2.mean ∧ s1.median = s2.median ∧
        s1.standardDeviation = s2.standardDeviation ∧ s1.modes = s2.modes ∧
        (∀ v, v ∈ s1.modes ↔ v ∈ s2.modes) :=
  ⟨by decide, by decide, by decide!,
    C19_order_independent 2 [3, 1, 2] [2, 3, 1] (by decide) (by decide) (by decide!)⟩

/-- C14 (as stated) fails: at precision 2 on the input `[1.239, 1.239, 2]` the stored mode is
`1.239` as it was given, while `roundToPrecision(1.239)` is `1.23`. -/
theorem C14_counterexample :
    (Compute (NewStatistics 2 : statistics ℚ) [1239 / 1000, 1239 / 1000, 2]).map
        (fun s1 => (s1.modes, s1.modes.map s1.roundToPrecision, s1.err)) =
      some ([1239 / 1000], [123 / 100], none) := by
  decide!

theorem C14_modes_are_inputs_witness :
    ([1239 / 1000, 1239 / 1000, 2] : List ℚ) ≠ [] ∧
      ∃ s1 : statistics ℚ, Compute (NewStatistics 2) [1239 / 1000, 1239 / 1000, 2] = some s1 ∧
        (∀ m, m ∈ s1.modes → m ∈ ([1239 / 1000, 1239 / 1000, 2] : List ℚ)) ∧
        ((∀ m, m ∈ s1.modes → m = s1.roundToPrecision m) ↔
          ∀ v, v ∈ ([1239 / 1000, 1239 / 1000, 2] : List ℚ) →
            (∀ w, ([1239 / 1000, 1239 / 1000, 2] : List ℚ).count w ≤
              ([1239 / 1000, 1239 / 1000, 2] : List ℚ).count v) →
            v = s1.roundToPrecision v) :=
  ⟨by decide, C14_modes_are_inputs (NewStatistics 2) [1239 / 1000, 1239 / 1000, 2] (by decide)⟩

/-- C4 (as stated) fails: at precision 2 the scaled sum of the input `[10^17]` is `10^19`,
which does not fit the 64-bit `int`; the stored sum is `math.MinInt64 / 100`, not `10^17`. -/
theorem C4_counterexample :
    (Compute (NewStatistics 2 : statistics ℚ) [(10 : ℚ) ^ 17]).map (fun s1 => s1.sum) =
        some (-9223372036854775808 / 100) ∧
      (-9223372036854775808 / 100 : ℚ) ≠ (10 : ℚ) ^ 17 := by
  decide!

theorem C4_sum_witness :
    (NewStatistics 2 : statistics ℚ).precision = ((2 : Nat) : Int) ∧
      ([1239 / 1000, 2] : List ℚ) ≠ [] ∧
      ExactAt (fun y : ℚ => y) ((2 : Nat) : Int)
        ((Float64s ([1239 / 1000, 2] : List ℚ)).foldl (fun sum x => sum + x) (0 : ℚ)) ∧
      ∃ s1 : statistics ℚ, Compute (NewStatistics 2) [1239 / 1000, 2] = some s1 ∧
        s1.sum = s1.roundToPrecision
          ((Float64s ([1239 / 1000, 2] : List ℚ)).foldl (fun sum x => sum + x) (0 : ℚ)) ∧
        s1.sum = 323 / 100 := by
  have hex : ExactAt (fun y : ℚ => y) ((2 : Nat) : Int)
      ((Float64s ([1239 / 1000, 2] : List ℚ)).foldl (fun sum x => sum + x) (0 : ℚ)) :=
    exactAt_of_exactArith ratExactArith _ _ (by decide!)
  obtain ⟨s1, hC, h1, h2, h3⟩ :=
    C4_sum.1 ℚ ℚ (fun y : ℚ => y) 2 (NewStatistics 2) [1239 / 1000, 2] rfl (by decide)
  refine ⟨rfl, by decide, hex, s1, hC, h1, ?_⟩
  have h4 := (h3 hex).1
  have e : scaledInt ((2 : Nat) : Int)
      ((Float64s ([1239 / 1000, 2] : List ℚ)).foldl (fun sum x => sum + x) (0 : ℚ)) = 323 := by
    decide!
  rw [e] at h4
  rw [show s1.sum = (fun y : ℚ => y) s1.sum from rfl, h4]
  norm_num

theorem C9_roundToPrecision_witness :
    (NewStatistics 2 : statistics ℚ).precision = ((2 : Nat) : Int) ∧
      ExactAt (fun y : ℚ => y) ((2 : Nat) : Int) (1239 / 1000 : ℚ) ∧
      (NewStatistics 2 : statistics ℚ).roundToPrecision (1239 / 1000) =
        ((scaledInt ((2 : Nat) : Int) (1239 / 1000 : ℚ) : Int) : ℚ) / (10 : ℚ) ^ 2 ∧
      |(NewStatistics 2 : statistics ℚ).roundToPrecision (1239 / 1000)| ≤ |(1239 / 1000 : ℚ)| := by
  have hex : ExactAt (fun y : ℚ => y) ((2 : Nat) : Int) (1239 / 1000 : ℚ) :=
    exactAt_of_exactArith ratExactArith _ _ (by decide!)
  have h := (C9_roundToPrecision.1 ℚ ℚ (fun y : ℚ => y) 2 (NewStatistics 2) rfl
    (1239 / 1000)).2 hex
  exact ⟨rfl, hex, h.1, h.2.2.1⟩

theorem C18_negative_precision_witness :
    0 < 1 ∧ (NewStatistics (-1) : statistics ℚ).precision = -((1 : Nat) : Int) ∧
      ExactAt (fun y : ℚ => y) (-((1 : Nat) : Int)) (129 : ℚ) ∧
      (NewStatistics (-1) : statistics ℚ).roundToPrecision 129 =
        ((scaledInt (-((1 : Nat) : Int)) (129 : ℚ) : Int) : ℚ) * (10 : ℚ) ^ 1 ∧
      (NewStatistics (-1) : statistics ℚ).roundToPrecision 129 = 120 := by
  have hex : ExactAt (fun y : ℚ => y) (-((1 : Nat) : Int)) (129 : ℚ) :=
    exactAt_of_exactArith ratExactArith _ _ (by decide!)
  have h := (C18_negative_precision.2.1 ℚ ℚ (fun y : ℚ => y) 1 (NewStatistics (-1))
    (by decide) rfl 129).2 hex
  exact ⟨by decide, rfl, hex, h.1,
    (C18_negative_precision.2.2 ℚ ratExactArith 1 (NewStatistics (-1)) (by decide) rfl).2 rfl⟩

/-! ## A single input: division by zero -/

theorem Ext.pow_ten (p : Nat) :
    (Float64Ops.pow (Float64Ops.ofInt 10 : Ext) (Float64Ops.ofInt (p : Int)) : Ext) =
      Ext.fin ((10 : ℚ) ^ p) := by
  show Ext.pow (Ext.fin ((10 : Int) : ℚ)) (Ext.fin (((p : Int) : Int) : ℚ)) = _
  have h10 : ((10 : Int) : ℚ) = 10 := by norm_num
  have hp : (((p : Int) : Int) : ℚ) = (p : ℚ) := by norm_num
  rw [h10, hp]
  unfold Ext.pow
  by_cases h0 : p = 0
  · subst h0
    simp
  · have hq0 : ¬ ((p : ℚ) = 0) := by exact_mod_cast h0
    have hx1 : ¬ (Ext.fin (p : ℚ) = Ext.fin 0 ∨ Ext.fin (10 : ℚ) = Ext.fin 1) := by
      rintro (h | h)
      · exact hq0 (Ext.fin.inj h)
      · have := Ext.fin.inj h
        norm_num at this
    rw [if_neg hx1]
    by_cases h1 : p = 1
    · subst h1
      simp
    · have hq1 : ¬ (Ext.fin (p : ℚ) = Ext.fin 1) := by
        intro h
        have := Ext.fin.inj h
        exact h1 (by exact_mod_cast this)
      rw [if_neg hq1]
      dsimp only
      have ha : ¬ ((10 : ℚ) = 0) := by norm_num
      have hb : ¬ ((10 : ℚ) < 0 ∧ ((⌊(p : ℚ)⌋ : Int) : ℚ) ≠ (p : ℚ)) := by
        rintro ⟨h, -⟩; norm_num at h
      rw [if_neg ha, if_neg hb]
      have h2 : ⌊(p : ℚ)⌋ = (p : Int) := Int.floor_natCast p
      rw [h2, zpow_natCast]

theorem Ext.roundAt_fin (p : Nat) (v : Ext) :
    ∃ q : ℚ, roundAt (p : Int) v = Ext.fin q := by
  unfold roundAt
  rw [Ext.pow_ten]
  refine ⟨((Ext.toInt (v * Ext.fin ((10 : ℚ) ^ p)) : Int) : ℚ) / (10 : ℚ) ^ p, ?_⟩
  show Ext.div (Ext.fin _) (Ext.fin ((10 : ℚ) ^ p)) = _
  unfold Ext.div
  dsimp only
  have h : ¬ ((10 : ℚ) ^ p = 0) := pow_ne_zero _ (by norm_num)
  rw [if_neg h]
  rfl

/-- C13 (amended): with the infinite and not-a-number values in the model, for every input of
exactly one value and every non-negative precision `Compute` returns without error, and the
stored standard deviation is a finite number: `roundToPrecision` sends the result of the
division by zero through `int`. -/
theorem C13_single_input_finite (p : Nat) (x : Ext) :
    ∃ s1 : statistics Ext, Compute (NewStatistics (p : Int)) [x] = some s1 ∧ s1.err = none ∧
      ∃ q : ℚ, s1.standardDeviation = Ext.fin q := by
  obtain ⟨m, -, hC⟩ := Compute_nonempty (NewStatistics (p : Int) : statistics Ext) [x] (by simp)
  exact ⟨_, hC, rfl, Ext.roundAt_fin p _⟩

/-- C13 (as stated) fails: at precision 2 the inputs `[5]` (zero over zero) and `[1.239]` (a
positive number over zero) both store the finite standard deviation `math.MinInt64 / 100`,
without error. -/
theorem C13_counterexample :
    (Compute (NewStatistics 2 : statistics Ext) [Ext.fin 5]).map
        (fun s1 => (s1.standardDeviation, s1.err)) =
      some (Ext.fin (-9223372036854775808 / 100), none) ∧
    (Compute (NewStatistics 2 : statistics Ext) [Ext.fin (1239 / 1000)]).map
        (fun s1 => (s1.standardDeviation, s1.err)) =
      some (Ext.fin (-9223372036854775808 / 100), none) := by
  decide!

end Go101
